import Mathlib

/-!
Verification of the graphrag-codebase server against its design spec.

Each Python module relevant to the claims is shallowly embedded as Lean
definitions; Python regular-expression searches over ASCII query strings are
embedded as explicit, executable scanners with the same semantics on the
character classes involved.  Machine floats (`datetime` second counts, token
buckets) are modelled as rationals; wall-clock reads become explicit `now`
parameters.
-/

namespace GraphRAG

/-! ### Character classes and keyword matching

`\w`, `\s`, `\d` from Python `re`, restricted to ASCII (queries and paths in
this system are ASCII).  A case-insensitive keyword is a list of
(uppercase, lowercase) character pairs, mirroring `re.IGNORECASE` on ASCII
letters. -/

def isWordChar (c : Char) : Bool := c.isAlpha || c.isDigit || c == '_'

def isSpaceChar (c : Char) : Bool :=
  c == ' ' || c == '\t' || c == '\n' || c == '\r' || c == '\x0b' || c == '\x0c'

abbrev KwChar := Char × Char

def kwMatches (k : KwChar) (c : Char) : Bool := c == k.1 || c == k.2

/-- Match a case-insensitive keyword at the head of the input; return the rest. -/
def matchKw : List KwChar → List Char → Option (List Char)
  | [], cs => some cs
  | _ :: _, [] => none
  | k :: ks, c :: cs => if kwMatches k c then matchKw ks cs else none

/-- Build the (upper, lower) pair list of a keyword. -/
def kwOf (s : String) : List KwChar := s.data.map (fun c => (c.toUpper, c.toLower))

def natOfDigits (ds : List Char) : Nat :=
  ds.foldl (fun a c => 10 * a + (c.toNat - 48)) 0

def KW_LIMIT : List KwChar := kwOf "LIMIT"

/-! ### query_guardrails.py -/

namespace QueryGuardrails

def MAX_RESULTS_DEFAULT : Nat := 100

def MAX_RESULTS_ABSOLUTE : Nat := 1000

/-- One attempt of `re` at matching `\bLIMIT\s+(\d+)` at the current position.
`prevW` says whether the preceding character is a word character (the `\b`
lookaround; at string start `prevW = false`).  Returns the captured number and
the input past the match.  `\s+` and `(\d+)` are both greedy; since no
character is both a space and a digit, greedy matching without backtracking is
equivalent to the regex. -/
def matchLimitAt (prevW : Bool) (cs : List Char) : Option (Nat × List Char) :=
  if prevW then none else
  match matchKw KW_LIMIT cs with
  | none => none
  | some r1 =>
    match r1 with
    | [] => none
    | c :: r1' =>
      if isSpaceChar c then
        let r2 := r1'.dropWhile isSpaceChar
        let run := r2.takeWhile Char.isDigit
        if run.isEmpty then none
        else some (natOfDigits run, r2.dropWhile Char.isDigit)
      else none

/-- `re.search(r"\bLIMIT\s+(\d+)", query, re.IGNORECASE)`: value of the first
match, scanning left to right. -/
def findLimitAux : Bool → List Char → Option Nat
  | _, [] => none
  | prevW, c :: cs =>
    match matchLimitAt prevW (c :: cs) with
    | some (n, _) => some n
    | none => findLimitAux (isWordChar c) cs

def findLimit (q : String) : Option Nat := findLimitAux false q.data

/-- The replacement text `f"LIMIT {MAX_RESULTS_ABSOLUTE}"`. -/
def LIMIT_REPL : List Char := "LIMIT 1000".data

/-- `re.sub(r"\bLIMIT\s+(\d+)", "LIMIT 1000", query, flags=re.IGNORECASE)`:
replace every non-overlapping match, left to right.  `skip` counts characters
of an already-replaced match still to be walked over; no new match may start
inside them, which is exactly the non-overlapping resume of `re.sub`, and the
word-character state is tracked through them for the following `\b`. -/
def subLimitAux : Bool → Nat → List Char → List Char
  | _, _, [] => []
  | _, skip + 1, c :: cs => subLimitAux (isWordChar c) skip cs
  | prevW, 0, c :: cs =>
    match matchLimitAt prevW (c :: cs) with
    | some (_, rest) => LIMIT_REPL ++ subLimitAux true (cs.length - rest.length) cs
    | none => c :: subLimitAux (isWordChar c) 0 cs

def subLimit (q : List Char) : List Char := subLimitAux false 0 q

/-- Python `str.rstrip()`: drop trailing whitespace. -/
def rstripWs (cs : List Char) : List Char :=
  (cs.reverse.dropWhile isSpaceChar).reverse

/-- Python `str.rstrip(";")`: drop trailing semicolons. -/
def rstripSemi (cs : List Char) : List Char :=
  (cs.reverse.dropWhile (· == ';')).reverse

/-- `enforce_limit` from query_guardrails.py. -/
def enforce_limit (query : String) (max_results : Nat := MAX_RESULTS_DEFAULT) : String :=
  let effective_limit := min max_results MAX_RESULTS_ABSOLUTE
  match findLimit query with
  | some existing_limit =>
    if existing_limit > MAX_RESULTS_ABSOLUTE then
      String.mk (subLimit query.data)
    else query
  | none =>
    String.mk (rstripSemi (rstripWs query.data) ++ (" LIMIT " ++ toString effective_limit).data)

/-- `validate_limit_param` from query_guardrails.py: the user-facing row limit.
`limit` is the user value (`None` or an integer). -/
def validate_limit_param (limit : Option Int) : Int :=
  match limit with
  | none => MAX_RESULTS_DEFAULT
  | some l =>
    if l < 1 then 1
    else if l > MAX_RESULTS_ABSOLUTE then MAX_RESULTS_ABSOLUTE
    else l

end QueryGuardrails

/-- Literal substring search (Python's `in` on strings). -/
def hasSubstr (pat : List Char) : List Char → Bool
  | [] => pat.isPrefixOf []
  | c :: cs => pat.isPrefixOf (c :: cs) || hasSubstr pat cs

/-- Deduplication keeping first occurrences (Python `set`/`dict` insertion
behavior where relevant); `seen` accumulates the elements already kept. -/
def dedupKeepFirstAux {α : Type} [DecidableEq α] (seen : List α) : List α → List α
  | [] => []
  | a :: as =>
    if a ∈ seen then dedupKeepFirstAux seen as
    else a :: dedupKeepFirstAux (a :: seen) as

def dedupKeepFirst {α : Type} [DecidableEq α] (l : List α) : List α :=
  dedupKeepFirstAux [] l

/-- `str.split(sep)` for a one-character separator (empty pieces kept). -/
def splitOnCharAux (sep : Char) : List Char → List Char → List String
  | [], acc => [String.mk acc.reverse]
  | c :: cs, acc =>
    if c == sep then String.mk acc.reverse :: splitOnCharAux sep cs []
    else splitOnCharAux sep cs (c :: acc)

def splitOnChar (sep : Char) (s : String) : List String := splitOnCharAux sep s.data []

/-- `str.strip()` (ASCII whitespace). -/
def trimWs (s : String) : String :=
  String.mk ((s.data.dropWhile isSpaceChar).reverse.dropWhile isSpaceChar).reverse

/-! ### cypher_validator.py -/

namespace CypherValidator

/-- `GraphSchema`: known graph schema elements (sets modelled as lists). -/
structure GraphSchema where
  node_labels : List String
  relationship_types : List String

/-- `ValidationResult` from cypher_validator.py. -/
structure ValidationResult where
  is_valid : Bool
  errors : List String
  warnings : List String
deriving DecidableEq

/-- The shape of each regex in `FORBIDDEN_PATTERNS`:
`word kw` is `\bKW\b`, `word2 k1 k2` is `\bK1\s+K2\b`, and
`callProc p` is `\bCALL\s+P\.` (all with `re.IGNORECASE`). -/
inductive CypherPat where
  | word (kw : List KwChar)
  | word2 (k1 k2 : List KwChar)
  | callProc (proc : List KwChar)
deriving DecidableEq

/-- End-of-word boundary `\b`: next character is absent or not a word char. -/
def boundaryAfter : List Char → Bool
  | [] => true
  | c :: _ => !isWordChar c

/-- Try a pattern at the current position (`prevW` is the `\b` lookaround on
the left).  `\s+` is greedy; the keywords start with letters, never spaces,
so greedy matching is equivalent to the regex. -/
def patAt (p : CypherPat) (prevW : Bool) (cs : List Char) : Bool :=
  if prevW then false else
  match p with
  | .word kw =>
    match matchKw kw cs with
    | some r => boundaryAfter r
    | none => false
  | .word2 k1 k2 =>
    match matchKw k1 cs with
    | none => false
    | some r1 =>
      match r1 with
      | [] => false
      | c :: r1' =>
        if isSpaceChar c then
          match matchKw k2 (r1'.dropWhile isSpaceChar) with
          | some r3 => boundaryAfter r3
          | none => false
        else false
  | .callProc proc =>
    match matchKw (kwOf "CALL") cs with
    | none => false
    | some r1 =>
      match r1 with
      | [] => false
      | c :: r1' =>
        if isSpaceChar c then
          match matchKw proc (r1'.dropWhile isSpaceChar) with
          | some ('.' :: _) => true
          | _ => false
        else false

/-- `re.search`: try the pattern at every position, left to right. -/
def patSearchAux (p : CypherPat) : Bool → List Char → Bool
  | prevW, [] => patAt p prevW []
  | prevW, c :: cs => patAt p prevW (c :: cs) || patSearchAux p (isWordChar c) cs

def patSearch (p : CypherPat) (q : List Char) : Bool := patSearchAux p false q

/-- `FORBIDDEN_PATTERNS`, in source order. -/
def FORBIDDEN_PATTERNS : List (CypherPat × String) :=
  [(.word2 (kwOf "DETACH") (kwOf "DELETE"), "DETACH DELETE operations"),
   (.word (kwOf "DROP"), "DROP operations"),
   (.word2 (kwOf "CREATE") (kwOf "INDEX"), "CREATE INDEX operations"),
   (.word2 (kwOf "CREATE") (kwOf "CONSTRAINT"), "CREATE CONSTRAINT operations"),
   (.callProc (kwOf "db"), "db.* procedure calls"),
   (.callProc (kwOf "apoc"), "APOC procedure calls"),
   (.word (kwOf "DELETE"), "DELETE operations"),
   (.word (kwOf "REMOVE"), "REMOVE operations"),
   (.word (kwOf "SET"), "SET operations"),
   (.word (kwOf "CREATE"), "CREATE operations"),
   (.word (kwOf "MERGE"), "MERGE operations")]

/-- One attempt of `\([\w]*:([\w]+)\)` at the current position. -/
def labelAt (cs : List Char) : Option String :=
  match cs with
  | '(' :: rest =>
    match rest.dropWhile isWordChar with
    | ':' :: r2 =>
      let run := r2.takeWhile isWordChar
      if run.isEmpty then none
      else
        match r2.dropWhile isWordChar with
        | ')' :: _ => some (String.mk run)
        | _ => none
    | _ => none
  | _ => none

/-- `re.findall(r"\([\w]*:([\w]+)\)", query)`: node labels used.  The
pattern is attempted at every position; since a successful match contains no
further `(` after its opening parenthesis, no later attempt can start inside
an earlier match, so this equals `findall` with its resume-past-the-match
scanning. -/
def labelScan : List Char → List String
  | [] => []
  | c :: cs =>
    match labelAt (c :: cs) with
    | some l => l :: labelScan cs
    | none => labelScan cs

/-- One attempt of `\[[\w]*:([\w]+)\]` at the current position. -/
def relAt (cs : List Char) : Option String :=
  match cs with
  | '[' :: rest =>
    match rest.dropWhile isWordChar with
    | ':' :: r2 =>
      let run := r2.takeWhile isWordChar
      if run.isEmpty then none
      else
        match r2.dropWhile isWordChar with
        | ']' :: _ => some (String.mk run)
        | _ => none
    | _ => none
  | _ => none

/-- `re.findall(r"\[[\w]*:([\w]+)\]", query)`: relationship types used
(same position-wise scan as `labelScan`). -/
def relScan : List Char → List String
  | [] => []
  | c :: cs =>
    match relAt (c :: cs) with
    | some r => r :: relScan cs
    | none => relScan cs

/-- `\[\*\d+\.\.\]`: open-ended variable-length path. -/
def openEndedAt (cs : List Char) : Bool :=
  match cs with
  | '[' :: '*' :: r =>
    let run := r.takeWhile Char.isDigit
    if run.isEmpty then false
    else
      match r.dropWhile Char.isDigit with
      | '.' :: '.' :: ']' :: _ => true
      | _ => false
  | _ => false

def hasOpenEnded : List Char → Bool
  | [] => false
  | c :: cs => openEndedAt (c :: cs) || hasOpenEnded cs

/-- The negative lookbehind `(?<!LIMIT\s)` of the `RETURN * without LIMIT`
warning, applied to the reversed prefix before the current position. -/
def lookbehindLIMIT (rprev : List Char) : Bool :=
  match rprev with
  | s :: t :: i2 :: m :: i1 :: l :: _ =>
    isSpaceChar s && kwMatches ('T', 't') t && kwMatches ('I', 'i') i2 &&
      kwMatches ('M', 'm') m && kwMatches ('I', 'i') i1 && kwMatches ('L', 'l') l
  | _ => false

/-- `(?<!LIMIT\s)\bRETURN\s+\*` attempted at the current position; `rprev` is
the reversed list of characters before it. -/
def returnStarAt (rprev : List Char) (cs : List Char) : Bool :=
  (match rprev with
   | [] => true
   | p :: _ => !isWordChar p) &&
  !lookbehindLIMIT rprev &&
  (match matchKw (kwOf "RETURN") cs with
   | none => false
   | some r1 =>
     match r1 with
     | [] => false
     | c :: r1' =>
       if isSpaceChar c then
         match r1'.dropWhile isSpaceChar with
         | '*' :: _ => true
         | _ => false
       else false)

def returnStarAux (rprev : List Char) : List Char → Bool
  | [] => false
  | c :: cs => returnStarAt rprev (c :: cs) || returnStarAux (c :: rprev) cs

def hasReturnStar (q : List Char) : Bool := returnStarAux [] q

/-- `CypherValidator.validate`.  The Python set formatting of unknown names is
rendered with `String.intercalate` (the claims only inspect the message
prefix, which is preserved). -/
def validate (schema : GraphSchema) (query : String) : ValidationResult :=
  let q := query.data
  let forbiddenErrors := FORBIDDEN_PATTERNS.filterMap
    (fun pd => if patSearch pd.1 q then some ("Forbidden: " ++ pd.2) else none)
  let labels_used := dedupKeepFirst (labelScan q)
  let unknown_labels := labels_used.filter (fun l => !schema.node_labels.contains l)
  let labelErrors :=
    if unknown_labels.isEmpty then []
    else ["Unknown node labels: " ++ String.intercalate ", " unknown_labels]
  let rels_used := dedupKeepFirst (relScan q)
  let unknown_rels := rels_used.filter (fun r => !schema.relationship_types.contains r)
  let relErrors :=
    if unknown_rels.isEmpty then []
    else ["Unknown relationship types: " ++ String.intercalate ", " unknown_rels]
  let warnings :=
    (if hasSubstr ['[', '*', ']'] q then ["Unbounded variable-length path"] else []) ++
    (if hasOpenEnded q then ["Open-ended variable-length path"] else []) ++
    (if hasReturnStar q then ["RETURN * without LIMIT"] else []) ++
    (if (QueryGuardrails.findLimit query).isSome then []
     else ["No LIMIT clause (will be added automatically)"])
  let errors := forbiddenErrors ++ labelErrors ++ relErrors
  { is_valid := errors.isEmpty, errors := errors, warnings := warnings }

end CypherValidator

/-! ### circuit_breaker.py

`datetime.now()` reads become explicit rational `now` arguments; elapsed
seconds are exact rationals. -/

namespace CircuitBreaker

inductive CircuitState where
  | closed
  | opened
  | halfOpen
deriving DecidableEq

structure Breaker where
  failure_threshold : Nat
  recovery_timeout : ℚ
  failure_count : Nat
  last_failure_time : Option ℚ
  stateRaw : CircuitState
deriving DecidableEq

/-- A freshly constructed `CircuitBreaker(...)`. -/
def mkBreaker (threshold : Nat) (timeout : ℚ) : Breaker :=
  { failure_threshold := threshold, recovery_timeout := timeout,
    failure_count := 0, last_failure_time := none, stateRaw := .closed }

/-- The `state` property: reads the clock and performs the OPEN → HALF_OPEN
transition when the recovery timeout has elapsed since the last failure. -/
def stateAt (b : Breaker) (now : ℚ) : CircuitState × Breaker :=
  match b.stateRaw, b.last_failure_time with
  | .opened, some t =>
    if b.recovery_timeout ≤ now - t then (.halfOpen, { b with stateRaw := .halfOpen })
    else (.opened, b)
  | s, _ => (s, b)

def record_success (b : Breaker) : Breaker :=
  { b with failure_count := 0, stateRaw := .closed }

def record_failure (b : Breaker) (now : ℚ) : Breaker :=
  let fc := b.failure_count + 1
  { b with
    failure_count := fc
    last_failure_time := some now
    stateRaw := if b.failure_threshold ≤ fc then .opened else b.stateRaw }

/-- `allow_request`: reads the state property (which may transition) and
admits in CLOSED and HALF_OPEN. -/
def allow_request (b : Breaker) (now : ℚ) : Bool × Breaker :=
  let sb := stateAt b now
  (sb.1 == CircuitState.closed || sb.1 == CircuitState.halfOpen, sb.2)

/-- The operations a caller can perform on a breaker. -/
inductive CBEvent where
  | success
  | failure (now : ℚ)
  | allow (now : ℚ)

def step (b : Breaker) : CBEvent → Breaker
  | .success => record_success b
  | .failure now => record_failure b now
  | .allow now => (allow_request b now).2

def runEvents (b : Breaker) (events : List CBEvent) : Breaker := events.foldl step b

end CircuitBreaker

/-! ### rate_limiter.py

The per-client dictionaries become total functions (`defaultdict(float)`
defaults to 0; `_last_update` misses are `none`). -/

namespace RateLimiter

structure Limiter where
  requests_per_minute : Nat
  burst_size : Nat
deriving DecidableEq

structure LimiterState where
  buckets : String → ℚ
  last_update : String → Option ℚ

def initState : LimiterState := { buckets := fun _ => 0, last_update := fun _ => none }

/-- `_refill`: returns the refreshed token count and the updated state. -/
def refill (rl : Limiter) (st : LimiterState) (client_id : String) (now : ℚ) :
    ℚ × LimiterState :=
  match st.last_update client_id with
  | none =>
    ((rl.burst_size : ℚ),
     { buckets := fun c => if c = client_id then (rl.burst_size : ℚ) else st.buckets c,
       last_update := fun c => if c = client_id then some now else st.last_update c })
  | some last =>
    let elapsed := now - last
    let refill_rate := (rl.requests_per_minute : ℚ) / 60
    let tokens := min (st.buckets client_id + elapsed * refill_rate) (rl.burst_size : ℚ)
    (tokens,
     { buckets := fun c => if c = client_id then tokens else st.buckets c,
       last_update := fun c => if c = client_id then some now else st.last_update c })

/-- `allow`: check whether a request is admitted and consume a token. -/
def allow (rl : Limiter) (st : LimiterState) (client_id : String) (now : ℚ) :
    Bool × LimiterState :=
  let ts := refill rl st client_id now
  if 1 ≤ ts.1 then
    (true,
     { buckets := fun c => if c = client_id then ts.1 - 1 else ts.2.buckets c,
       last_update := ts.2.last_update })
  else (false, ts.2)

/-- Python `int()` truncation toward zero on a rational. -/
def pyInt (q : ℚ) : Int :=
  if 0 ≤ q then Int.ofNat (q.num.toNat / q.den)
  else -Int.ofNat ((-q.num).toNat / q.den)

def get_retry_after (rl : Limiter) (st : LimiterState) (client_id : String) : ℚ :=
  let tokens := st.buckets client_id
  if 1 ≤ tokens then 0
  else (1 - tokens) / ((rl.requests_per_minute : ℚ) / 60)

def get_remaining (rl : Limiter) (st : LimiterState) (client_id : String) (now : ℚ) :
    Int × LimiterState :=
  let ts := refill rl st client_id now
  (pyInt (ts.2.buckets client_id), ts.2)

/-- Run a sequence of `(client_id, now)` calls to `allow`, logging outcomes. -/
def simulate (rl : Limiter) : LimiterState → List (String × ℚ) → List (String × ℚ × Bool)
  | _, [] => []
  | st, e :: rest =>
    let r := allow rl st e.1 e.2
    (e.1, e.2, r.1) :: simulate rl r.2 rest

/-- Admitted requests of client `c` whose timestamp lies in `[T, T + 60]`. -/
def countWindow (c : String) (T : ℚ) (log : List (String × ℚ × Bool)) : Nat :=
  (log.filter (fun e => e.1 == c && decide (T ≤ e.2.1) && decide (e.2.1 ≤ T + 60) && e.2.2)).length

end RateLimiter

/-! ### path_sanitizer.py

`os.path.normpath` is embedded by its documented algorithm; `Path.resolve`
is modelled on a symlink-free filesystem (make absolute against `cwd`, then
normalize); `Path.relative_to` is a segment-prefix check. -/

namespace PathSanitizer

inductive PathError where
  | emptyPath
  | nullByte
  | traversal
  | absoluteNotAllowed
  | escapesBase
deriving DecidableEq

def isAbs (p : String) : Bool :=
  match p.data with
  | '/' :: _ => true
  | _ => false

/-- `posixpath.normpath`. -/
def normpath (p : String) : String :=
  if p = "" then "." else
  let initialSlashes : Nat :=
    match p.data with
    | '/' :: '/' :: '/' :: _ => 1
    | '/' :: '/' :: _ => 2
    | '/' :: _ => 1
    | _ => 0
  let comps := (splitOnChar '/' p).filter (fun c => c != "" && c != ".")
  let newComps := comps.foldl (fun acc comp =>
    if comp != ".." || (initialSlashes == 0 && acc.isEmpty) || (acc.getLast? == some "..") then
      acc ++ [comp]
    else if !acc.isEmpty then acc.dropLast
    else acc) ([] : List String)
  let res := String.mk (List.replicate initialSlashes '/') ++ String.intercalate "/" newComps
  if res = "" then "." else res

/-- `Path.resolve()` on a symlink-free filesystem. -/
def resolve (cwd p : String) : String :=
  normpath (if isAbs p then p else cwd ++ "/" ++ p)

/-- `Path.__truediv__`: an absolute right operand replaces the left. -/
def joinPath (base p : String) : String :=
  if isAbs p then p else base ++ "/" ++ p

def segsOf (p : String) : List String := (splitOnChar '/' p).filter (fun s => s != "")

/-- `sanitize_path` from path_sanitizer.py.  Errors are the exception kinds
raised by the source (message strings elided). -/
def sanitize_path (user_path : String) (allowed_base : Option String)
    (allow_absolute : Bool) (cwd : String) : Except PathError String :=
  if user_path = "" then .error .emptyPath
  else if hasSubstr ['\x00'] user_path.data then .error .nullByte
  else if hasSubstr ['.', '.'] user_path.data then .error .traversal
  else
    let normalized := normpath user_path
    if isAbs normalized && !allow_absolute then .error .absoluteNotAllowed
    else
      match allowed_base with
      | some ab =>
        let base := resolve cwd ab
        let full_path :=
          if allow_absolute then resolve cwd normalized
          else resolve cwd (joinPath base normalized)
        if (segsOf base).isPrefixOf (segsOf full_path) then .ok full_path
        else .error .escapesBase
      | none => .ok normalized

end PathSanitizer

/-! ### http_server.py -/

namespace HttpServer

structure AsgiScope where
  scopeType : String
  path : String
  method : String
  headers : List (String × String)
  client : Option String
deriving DecidableEq

def headerGet (hs : List (String × String)) (k : String) : String :=
  (((hs.find? (fun h => h.1 == k)).map (fun h => h.2)).getD "")

/-- `_get_client_id`. -/
def get_client_id (scope : AsgiScope) : String :=
  let api_key := headerGet scope.headers "x-api-key"
  if api_key ≠ "" then "api:" ++ String.mk (api_key.data.take 8)
  else
    let forwarded := headerGet scope.headers "x-forwarded-for"
    if forwarded ≠ "" then "ip:" ++ trimWs ((splitOnChar ',' forwarded).headD "")
    else
      match scope.client with
      | some host => "ip:" ++ host
      | none => "ip:unknown"

/-- Where `MCPServerApp.__call__` sends a request.  `sse` and `messages` are
the handlers invoked before any rate-limit logic; `rateLimited` is the 429
response; `forwarded` is the Starlette app wrapped with the extra headers. -/
inductive Routed where
  | starletteNonHttp
  | sse
  | messages
  | rateLimited (status : Nat) (headers : List (String × String))
  | forwarded (extraHeaders : List (String × String))
deriving DecidableEq

/-- `MCPServerApp.__call__`, returning the routing decision and the rate
limiter state afterwards. -/
def appCall (rl : RateLimiter.Limiter) (st : RateLimiter.LimiterState)
    (scope : AsgiScope) (now : ℚ) : Routed × RateLimiter.LimiterState :=
  if scope.scopeType ≠ "http" then (.starletteNonHttp, st)
  else if scope.path == "/sse" && scope.method == "GET" then (.sse, st)
  else if scope.path == "/messages" && scope.method == "POST" then (.messages, st)
  else
    let client_id := get_client_id scope
    let r := RateLimiter.allow rl st client_id now
    if !r.1 then
      let retry_after := RateLimiter.get_retry_after rl r.2 client_id
      (.rateLimited 429
        [("Retry-After", toString (RateLimiter.pyInt retry_after + 1)),
         ("X-RateLimit-Remaining", "0")], r.2)
    else
      let rem := RateLimiter.get_remaining rl r.2 client_id now
      (.forwarded
        [("x-ratelimit-remaining", toString rem.1), ("x-ratelimit-limit", "100")], rem.2)

end HttpServer

/-! ### extractors/registry.py

The filesystem is a finite list of entries, each a segment path relative to
the repository root plus a directory flag. -/

namespace Registry

structure FSEntry where
  segs : List String
  isDir : Bool
deriving DecidableEq

structure FS where
  entries : List FSEntry
deriving DecidableEq

def pathExists (fs : FS) (segs : List String) : Bool :=
  fs.entries.any (fun e => e.segs == segs)

def isDirectory (fs : FS) (segs : List String) : Bool :=
  fs.entries.any (fun e => e.segs == segs && e.isDir)

/-- Entries (any depth) whose final name satisfies `pred`
(`path.rglob("**/<name-glob>")`). -/
def rglobName (fs : FS) (pred : String → Bool) : List FSEntry :=
  fs.entries.filter (fun e =>
    match e.segs.getLast? with
    | some n => pred n
    | none => false)

/-- Entries strictly under a top-level directory whose final name satisfies
`pred` (`(path / top).rglob("<name>")`). -/
def rglobUnder (fs : FS) (top : String) (pred : String → Bool) : List FSEntry :=
  fs.entries.filter (fun e =>
    e.segs.headD "" == top && decide (2 ≤ e.segs.length) &&
      pred (e.segs.getLast?.getD ""))

/-- Glob `playbook*.yml` / `playbook*.yaml` on a file name. -/
def matchesPlaybookGlob (suffix : String) (n : String) : Bool :=
  "playbook".data.isPrefixOf n.data && suffix.data.isSuffixOf (n.data.drop 8)

inductive RepoType where
  | ansible
  | python
  | generic
deriving DecidableEq

structure DetectionResult where
  repo_type : RepoType
  confidence : ℚ
  indicators : List String
deriving DecidableEq

def ANSIBLE_INDICATOR_NAMES : List String :=
  ["ansible.cfg", "playbooks", "roles", "inventory", "group_vars", "host_vars", ".ansible"]

def PYTHON_INDICATOR_NAMES : List String :=
  ["pyproject.toml", "setup.py", "setup.cfg", "requirements.txt"]

def pathStr (root name : String) : String := root ++ "/" ++ name

/-- The matched plain indicators of the Ansible profile. -/
def ansibleBaseMatches (root : String) (fs : FS) : List String :=
  (ANSIBLE_INDICATOR_NAMES.filter (fun n => pathExists fs [n])).map (pathStr root)

def playbookFileCount (fs : FS) : Nat :=
  (rglobName fs (matchesPlaybookGlob ".yml")).length +
    (rglobName fs (matchesPlaybookGlob ".yaml")).length +
    (rglobName fs (fun n => n == "site.yml")).length +
    (rglobName fs (fun n => n == "main.yml")).length

/-- `ansible_matches` as accumulated by the source, aggregate indicator
strings included. -/
def ansibleMatches (root : String) (fs : FS) : List String :=
  let tasksDirs := (rglobName fs (fun n => n == "tasks")).length
  let handlersDirs := (rglobName fs (fun n => n == "handlers")).length
  let pf := playbookFileCount fs
  ansibleBaseMatches root fs ++
    (if pf ≠ 0 then ["playbook files (" ++ toString pf ++ " found)"] else []) ++
    (if tasksDirs ≠ 0 then ["tasks directories (" ++ toString tasksDirs ++ " found)"] else []) ++
    (if handlersDirs ≠ 0 then
      ["handlers directories (" ++ toString handlersDirs ++ " found)"] else [])

def pythonMatches (root : String) (fs : FS) : List String :=
  let base := (PYTHON_INDICATOR_NAMES.filter (fun n => pathExists fs [n])).map (pathStr root)
  let initFiles :=
    if isDirectory fs ["src"] then (rglobUnder fs "src" (fun n => n == "__init__.py")).length
    else 0
  base ++
    (if isDirectory fs ["src"] && initFiles ≠ 0 then
      ["src/**/__init__.py (" ++ toString initFiles ++ " files)"] else [])

/-- `detect_repo_type`. -/
def detect_repo_type (root : String) (fs : FS) : DetectionResult :=
  let am := ansibleMatches root fs
  if !am.isEmpty then
    { repo_type := .ansible, confidence := min 1 ((am.length : ℚ) / 3), indicators := am }
  else
    let pm := pythonMatches root fs
    if !pm.isEmpty then
      { repo_type := .python, confidence := min 1 ((pm.length : ℚ) / 2), indicators := pm }
    else
      { repo_type := .generic, confidence := 1 / 2, indicators := ["fallback"] }

end Registry

/-! ### graph/builder.py and graph/schema.py

Property values are modelled as strings (`to_cypher_dict` drops `None`
values, so a missing association-list entry models both an absent key and a
`None` value). -/

namespace Builder

inductive NodeType where
  | FILE | DIRECTORY | PLAYBOOK | PLAY | TASK | HANDLER | ROLE | VARIABLE
  | TEMPLATE | INVENTORY | VARS_FILE | MODULE | CLASS | FUNCTION | IMPORT | REFERENCE
deriving DecidableEq

inductive RelationshipType where
  | IN_FILE | INCLUDES | IMPORTS | HAS_PLAY | HAS_TASK | HAS_HANDLER
  | USES_TEMPLATE | DEFINES_VAR | USES_VAR | USES_ROLE | DEPENDS_ON | NOTIFIES
  | LOADS_VARS | FROM_IMPORTS | DEFINES_CLASS | DEFINES_FUNCTION | HAS_METHOD
  | INHERITS | CALLS | DECORATED_BY | CONTAINS | REFERENCES | DEFINES | USES
deriving DecidableEq

structure PNode where
  node_type : NodeType
  properties : List (String × Option String)
deriving DecidableEq

/-- `Node.to_cypher_dict`: drop `None`-valued properties. -/
def to_cypher_dict (n : PNode) : List (String × String) :=
  n.properties.filterMap (fun kv => kv.2.map (fun v => (kv.1, v)))

def dictGet (props : List (String × String)) (k : String) : Option String :=
  (props.find? (fun kv => kv.1 == k)).map (fun kv => kv.2)

/-- `GraphBuilder._get_merge_keys`. -/
def get_merge_keys : NodeType → List String
  | .FILE | .PLAYBOOK | .TEMPLATE | .INVENTORY | .VARS_FILE | .DIRECTORY =>
    ["repository", "path"]
  | .ROLE => ["name"]
  | .PLAY => ["repository", "playbook_path", "name", "order"]
  | .TASK => ["repository", "file_path", "name", "order"]
  | .HANDLER => ["repository", "file_path", "name"]
  | .VARIABLE => ["repository", "name", "scope", "file_path"]
  | .MODULE => ["repository", "path"]
  | .CLASS => ["repository", "name"]
  | .FUNCTION => ["repository", "name"]
  | .IMPORT => ["repository", "module", "alias"]
  | .REFERENCE => ["repository", "name"]

/-- The §3.2 merge-key table of the spec, written from the spec's words. -/
def specMergeKeys : NodeType → List String
  | .FILE | .PLAYBOOK | .TEMPLATE | .INVENTORY | .VARS_FILE | .DIRECTORY | .MODULE =>
    ["repository", "path"]
  | .PLAY => ["repository", "playbook_path", "name", "order"]
  | .TASK => ["repository", "file_path", "name", "order"]
  | .HANDLER => ["repository", "file_path", "name"]
  | .VARIABLE => ["repository", "name", "scope", "file_path"]
  | .CLASS | .FUNCTION => ["repository", "name"]
  | .IMPORT => ["repository", "module", "alias"]
  | .ROLE => ["name"]
  | .REFERENCE => ["repository", "name"]

def hasAllMergeKeys (n : PNode) : Bool :=
  (get_merge_keys n.node_type).all (fun k => (dictGet (to_cypher_dict n) k).isSome)

/-- One batched `UNWIND ... MERGE` statement sent to the store. -/
structure NodeUpsert where
  node_type : NodeType
  merge_keys : List String
  rows : List (List (String × String))
deriving DecidableEq

/-- `GraphBuilder._flush_nodes`: group by type, drop nodes with a null merge
key component (warning, batch continues), send one upsert per type.  Returns
the upserts and the dropped nodes. -/
def _flush_nodes (batch : List PNode) : List NodeUpsert × List PNode :=
  let kept := batch.filter hasAllMergeKeys
  let types := dedupKeepFirst (kept.map (fun n => n.node_type))
  (types.map (fun t =>
    { node_type := t, merge_keys := get_merge_keys t,
      rows := (kept.filter (fun n => n.node_type == t)).map to_cypher_dict }),
   batch.filter (fun n => !hasAllMergeKeys n))

structure PRel where
  rel_type : RelationshipType
  from_node : PNode
  to_node : PNode
  properties : List (String × Option String)
deriving DecidableEq

def relProps (r : PRel) : List (String × String) :=
  r.properties.filterMap (fun kv => kv.2.map (fun v => (kv.1, v)))

/-- Python `a or b` for string-or-missing dictionary lookups (`None` and the
empty string are falsy). -/
def pyOr (a b : Option String) : Option String :=
  match a with
  | some s => if s = "" then b else some s
  | none => b

def truthy : Option String → Bool
  | some s => s ≠ ""
  | none => false

/-- One `MATCH ... MERGE` relationship statement sent to the store. -/
structure EdgeUpsert where
  rel_type : RelationshipType
  from_type : NodeType
  to_type : NodeType
  from_id : String
  to_id : String
  from_repo : Option String
  to_repo : Option String
  rel_props : List (String × String)
deriving DecidableEq

/-- The per-relationship body of `_flush_relationships`: identify both
endpoints by `path or name`, or drop the edge (`none`). -/
def processRel (r : PRel) : Option EdgeUpsert :=
  let from_props := to_cypher_dict r.from_node
  let to_props := to_cypher_dict r.to_node
  let from_id := pyOr (dictGet from_props "path") (dictGet from_props "name")
  let to_id := pyOr (dictGet to_props "path") (dictGet to_props "name")
  if truthy from_id && truthy to_id then
    some
      { rel_type := r.rel_type, from_type := r.from_node.node_type,
        to_type := r.to_node.node_type,
        from_id := from_id.getD "", to_id := to_id.getD "",
        from_repo := dictGet from_props "repository",
        to_repo := dictGet to_props "repository",
        rel_props := relProps r }
  else none

/-- `GraphBuilder._flush_relationships`: group by relationship type, then
upsert each identifiable edge and drop the rest with a warning. -/
def _flush_relationships (batch : List PRel) : List EdgeUpsert × List PRel :=
  let types := dedupKeepFirst (batch.map (fun r => r.rel_type))
  let ordered := types.flatMap (fun t => batch.filter (fun r => r.rel_type == t))
  (ordered.filterMap processRel, ordered.filter (fun r => (processRel r).isNone))

end Builder

/-! ### mcp/tools/query_tools.py -/

namespace QueryTools

structure DispatchResult where
  executed_query : Option String
  response : String
deriving DecidableEq

/-- The validation/dispatch slice of `query_codebase` (after the translator
produced `cypher`): validate against the live schema and either return the
rejection without touching the store, or execute the query.  `run_result`
abstracts the formatted rows produced when the gateway is called. -/
def query_codebase_dispatch (schema : CypherValidator.GraphSchema) (cypher : String)
    (run_result : String) : DispatchResult :=
  let validation := CypherValidator.validate schema cypher
  if validation.is_valid then
    { executed_query := some cypher, response := run_result }
  else
    { executed_query := none,
      response := "❌ Invalid query generated:\n" ++
        String.intercalate "\n" (validation.errors.map (fun e => "  - " ++ e)) ++
        "\n\nTry rephrasing your question." }

end QueryTools

/-! ### Concrete fixtures used by the scenario theorems -/

/-- The declared labels of the spec's validator scenario. -/
def exSchema : CypherValidator.GraphSchema :=
  { node_labels := ["Task", "Role", "Playbook"], relationship_types := ["HAS_TASK"] }

/-- Whether a relationship endpoint carries an identifying (truthy) `path` or
`name` property. -/
def Builder.endpointCarriesId (n : Builder.PNode) : Bool :=
  Builder.truthy (Builder.dictGet (Builder.to_cypher_dict n) "path") ||
    Builder.truthy (Builder.dictGet (Builder.to_cypher_dict n) "name")

/-- A `POST /messages` tool invocation (the RPC surface's tool channel). -/
def HttpServer.msgScope : HttpServer.AsgiScope :=
  { scopeType := "http", path := "/messages", method := "POST", headers := [],
    client := some "1.2.3.4" }

/-- A plain `GET /health` request from the same client. -/
def HttpServer.healthScope : HttpServer.AsgiScope :=
  { scopeType := "http", path := "/health", method := "GET", headers := [],
    client := some "1.2.3.4" }

/-- A limiter state whose every bucket is empty (all clients rate-limited). -/
def RateLimiter.exhaustedState : RateLimiter.LimiterState :=
  { buckets := fun _ => 0, last_update := fun _ => some 0 }

/-! ## Theorems -/

/-! ### General helper lemmas -/

theorem mem_dedupKeepFirstAux {α : Type} [DecidableEq α] (x : α) :
    ∀ (l seen : List α), x ∈ dedupKeepFirstAux seen l ↔ (x ∈ l ∧ x ∉ seen) := by
  intro l
  induction l with
  | nil => intro seen; simp [dedupKeepFirstAux]
  | cons a as ih =>
    intro seen
    simp only [dedupKeepFirstAux]
    split_ifs with hseen
    · rw [ih seen]
      simp only [List.mem_cons]
      constructor
      · rintro ⟨h1, h2⟩; exact ⟨Or.inr h1, h2⟩
      · rintro ⟨h1 | h1, h2⟩
        · exact absurd (h1 ▸ hseen) h2
        · exact ⟨h1, h2⟩
    · simp only [List.mem_cons, ih (a :: seen), List.mem_cons]
      constructor
      · rintro (rfl | ⟨h1, h2⟩)
        · exact ⟨Or.inl rfl, hseen⟩
        · exact ⟨Or.inr h1, fun hx => h2 (Or.inr hx)⟩
      · rintro ⟨h1 | h1, h2⟩
        · exact Or.inl h1
        · by_cases hx : x = a
          · exact Or.inl hx
          · exact Or.inr ⟨h1, fun hx2 => (by rcases hx2 with h | h; exact hx h; exact h2 h : False)⟩

theorem mem_dedupKeepFirst {α : Type} [DecidableEq α] (l : List α) (x : α) :
    x ∈ dedupKeepFirst l ↔ x ∈ l := by
  rw [dedupKeepFirst, mem_dedupKeepFirstAux]
  simp

theorem truthy_pyOr (a b : Option String) :
    Builder.truthy (Builder.pyOr a b) = (Builder.truthy a || Builder.truthy b) := by
  cases a with
  | none => simp [Builder.pyOr, Builder.truthy]
  | some s =>
    by_cases hs : s = "" <;> simp [Builder.pyOr, Builder.truthy, hs]

/-! ### C10 — validate_limit_param -/

/-- **C10.** `validate_limit_param` totalizes the user-supplied row limit at
the public interface: `None` maps to 100, every value below 1 maps to 1,
every value above 1000 maps to 1000, and every value in [1, 1000] is returned
unchanged — so the result always lies in [1, 1000]. -/
theorem C10_validate_limit_param_total (limit : Option Int) :
    QueryGuardrails.validate_limit_param limit =
      (match limit with
       | none => 100
       | some l => max 1 (min l 1000)) ∧
    1 ≤ QueryGuardrails.validate_limit_param limit ∧
    QueryGuardrails.validate_limit_param limit ≤ 1000 := by
  cases limit with
  | none =>
    simp [QueryGuardrails.validate_limit_param, QueryGuardrails.MAX_RESULTS_DEFAULT]
  | some l =>
    simp only [QueryGuardrails.validate_limit_param, QueryGuardrails.MAX_RESULTS_ABSOLUTE,
      QueryGuardrails.MAX_RESULTS_DEFAULT]
    split_ifs with h1 h2 <;> refine ⟨?_, ?_, ?_⟩ <;> omega

/-! ### C2 — invalid queries never reach the gateway -/

/-- **C2.** Whenever the validator marks the translated query invalid, the
`query_codebase` tool returns the human-readable rejection to the caller and
the graph store is never called with that query. -/
theorem C2_invalid_query_never_executed
    (schema : CypherValidator.GraphSchema) (cypher run_result : String)
    (h : (CypherValidator.validate schema cypher).is_valid = false) :
    (QueryTools.query_codebase_dispatch schema cypher run_result).executed_query = none ∧
    (QueryTools.query_codebase_dispatch schema cypher run_result).response =
      "❌ Invalid query generated:\n" ++
        String.intercalate "\n"
          ((CypherValidator.validate schema cypher).errors.map (fun e => "  - " ++ e)) ++
        "\n\nTry rephrasing your question." := by
  simp [QueryTools.query_codebase_dispatch, h]

/-- Witness for C2 at the spec's own rejected query `MATCH (n) DELETE n`. -/
theorem C2_invalid_query_never_executed_witness :
    (CypherValidator.validate exSchema "MATCH (n) DELETE n").is_valid = false ∧
    (QueryTools.query_codebase_dispatch exSchema "MATCH (n) DELETE n" "rows").executed_query =
      none :=
  ⟨by decide,
   (C2_invalid_query_never_executed exSchema "MATCH (n) DELETE n" "rows" (by decide)).1⟩

/-! ### C5 — path sanitizer -/

/-- **C5.** `sanitize_path` raises a sanitization error on every input that is
empty, contains a null byte, or contains `..` (no such input yields a path),
and on the spec's concrete examples: `../../etc/passwd` fails with the
path-traversal error, `file\x00.yml` fails with the null-byte error, and
`roles/common/tasks/main.yml` under base `/srv/a` resolves to
`/srv/a/roles/common/tasks/main.yml`. -/
theorem C5_sanitize_path
    (p : String) (base : Option String) (abs : Bool) (cwd : String) :
    ((p = "" ∨ hasSubstr ['\x00'] p.data = true ∨ hasSubstr ['.', '.'] p.data = true) →
      ∀ s, PathSanitizer.sanitize_path p base abs cwd ≠ .ok s) ∧
    PathSanitizer.sanitize_path "../../etc/passwd" base abs cwd = .error .traversal ∧
    PathSanitizer.sanitize_path "file\x00.yml" base abs cwd = .error .nullByte ∧
    PathSanitizer.sanitize_path "roles/common/tasks/main.yml" (some "/srv/a") false cwd =
      .ok "/srv/a/roles/common/tasks/main.yml" := by
  refine ⟨?_, ?_, ?_, ?_⟩
  · intro h s
    unfold PathSanitizer.sanitize_path
    rcases h with h | h | h
    · simp [h]
    · by_cases hp : p = "" <;> simp [hp, h]
    · by_cases hp : p = "" <;> by_cases hn : hasSubstr ['\x00'] p.data <;> simp [hp, hn, h]
  · rfl
  · rfl
  · rfl

/-- Witness for C5: the universal rejection clause applied to the traversal
example. -/
theorem C5_sanitize_path_witness :
    ("../../etc/passwd" = "" ∨ hasSubstr ['\x00'] "../../etc/passwd".data = true ∨
      hasSubstr ['.', '.'] "../../etc/passwd".data = true) ∧
    ∀ s, PathSanitizer.sanitize_path "../../etc/passwd" none false "/work" ≠ .ok s :=
  ⟨Or.inr (Or.inr (by decide)),
   (C5_sanitize_path "../../etc/passwd" none false "/work").1
     (Or.inr (Or.inr (by decide)))⟩

/-! ### C6 — builder flush drops -/

/-- **C6.** During flush the Builder drops — without failing the batch —
every buffered entity that has a null component in its kind's composite merge
key (the key table matches §3.2, with `Role` keyed by `name` alone), and
drops every buffered edge one of whose endpoints carries neither a `path` nor
a `name`; every other record of the batch is still upserted. -/
theorem C6_flush_drops (batch : List Builder.PNode) (rels : List Builder.PRel) :
    (∀ t, Builder.get_merge_keys t = Builder.specMergeKeys t) ∧
    (∀ n ∈ batch, Builder.hasAllMergeKeys n = false → n ∈ (Builder._flush_nodes batch).2) ∧
    (∀ n ∈ (Builder._flush_nodes batch).2, Builder.hasAllMergeKeys n = false) ∧
    (∀ n ∈ batch, Builder.hasAllMergeKeys n = true →
      ∃ u ∈ (Builder._flush_nodes batch).1,
        u.node_type = n.node_type ∧ Builder.to_cypher_dict n ∈ u.rows) ∧
    (∀ r ∈ rels,
      (Builder.endpointCarriesId r.from_node && Builder.endpointCarriesId r.to_node) = false →
      Builder.processRel r = none ∧ r ∈ (Builder._flush_relationships rels).2) ∧
    (∀ r ∈ rels,
      (Builder.endpointCarriesId r.from_node && Builder.endpointCarriesId r.to_node) = true →
      ∃ e, Builder.processRel r = some e ∧ e ∈ (Builder._flush_relationships rels).1) := by
  have hproc : ∀ r : Builder.PRel,
      (Builder.processRel r).isSome =
        (Builder.endpointCarriesId r.from_node && Builder.endpointCarriesId r.to_node) := by
    intro r
    simp only [Builder.processRel, Builder.endpointCarriesId, ← truthy_pyOr]
    split_ifs with h
    · rw [h]; rfl
    · rw [Bool.not_eq_true] at h; rw [h]; rfl
  have hordered : ∀ r ∈ rels, r ∈
      (dedupKeepFirst (rels.map (fun r => r.rel_type))).flatMap
        (fun t => rels.filter (fun x => x.rel_type == t)) := by
    intro r hr
    refine List.mem_flatMap.2 ⟨r.rel_type, ?_, ?_⟩
    · exact (mem_dedupKeepFirst _ _).2 (List.mem_map.2 ⟨r, hr, rfl⟩)
    · exact List.mem_filter.2 ⟨hr, by simp⟩
  refine ⟨?_, ?_, ?_, ?_, ?_, ?_⟩
  · intro t; cases t <;> rfl
  · intro n hn h
    simp only [Builder._flush_nodes]
    exact List.mem_filter.2 ⟨hn, by simp [h]⟩
  · intro n hn
    simp only [Builder._flush_nodes] at hn
    have := (List.mem_filter.1 hn).2
    simpa using this
  · intro n hn h
    simp only [Builder._flush_nodes]
    have hkept : n ∈ batch.filter Builder.hasAllMergeKeys := List.mem_filter.2 ⟨hn, h⟩
    refine ⟨{ node_type := n.node_type, merge_keys := Builder.get_merge_keys n.node_type,
              rows := ((batch.filter Builder.hasAllMergeKeys).filter
                (fun m => m.node_type == n.node_type)).map Builder.to_cypher_dict },
            ?_, rfl, ?_⟩
    · refine List.mem_map.2 ⟨n.node_type, ?_, rfl⟩
      exact (mem_dedupKeepFirst _ _).2 (List.mem_map.2 ⟨n, hkept, rfl⟩)
    · exact List.mem_map.2 ⟨n, List.mem_filter.2 ⟨hkept, by simp⟩, rfl⟩
  · intro r hr h
    have hnone : Builder.processRel r = none := by
      have := hproc r
      rw [h] at this
      exact Option.not_isSome_iff_eq_none.1 (by simp [this])
    refine ⟨hnone, ?_⟩
    simp only [Builder._flush_relationships]
    exact List.mem_filter.2 ⟨hordered r hr, by simp [hnone]⟩
  · intro r hr h
    have hsome : (Builder.processRel r).isSome := by rw [hproc r, h]
    obtain ⟨e, he⟩ := Option.isSome_iff_exists.1 hsome
    refine ⟨e, he, ?_⟩
    simp only [Builder._flush_relationships]
    exact List.mem_filterMap.2 ⟨r, hordered r hr, he⟩

/-- Witness for C6: a `Task` missing its `file_path` merge-key component is
dropped while the `Role` in the same batch is upserted. -/
theorem C6_flush_drops_witness :
    Builder.hasAllMergeKeys ⟨.TASK, [("repository", some "r"), ("name", some "t"),
      ("order", some "1")]⟩ = false ∧
    (⟨.TASK, [("repository", some "r"), ("name", some "t"), ("order", some "1")]⟩ :
        Builder.PNode) ∈
      (Builder._flush_nodes
        [⟨.ROLE, [("name", some "common")]⟩,
         ⟨.TASK, [("repository", some "r"), ("name", some "t"), ("order", some "1")]⟩]).2 ∧
    Builder.hasAllMergeKeys ⟨.ROLE, [("name", some "common")]⟩ = true ∧
    ∃ u ∈ (Builder._flush_nodes
        [⟨.ROLE, [("name", some "common")]⟩,
         ⟨.TASK, [("repository", some "r"), ("name", some "t"), ("order", some "1")]⟩]).1,
      u.node_type = Builder.NodeType.ROLE ∧
      [("name", "common")] ∈ u.rows :=
  ⟨by decide,
   (C6_flush_drops
      [⟨.ROLE, [("name", some "common")]⟩,
       ⟨.TASK, [("repository", some "r"), ("name", some "t"), ("order", some "1")]⟩] []).2.1
     ⟨.TASK, [("repository", some "r"), ("name", some "t"), ("order", some "1")]⟩
     (by decide) (by decide),
   by decide, by
   obtain ⟨u, hu, ht, hrow⟩ :=
     (C6_flush_drops
        [⟨.ROLE, [("name", some "common")]⟩,
         ⟨.TASK, [("repository", some "r"), ("name", some "t"), ("order", some "1")]⟩] []).2.2.2.1
       ⟨.ROLE, [("name", some "common")]⟩ (by decide) (by decide)
   exact ⟨u, hu, ht, hrow⟩⟩

/-! ### C9 — repository type detection -/

/-- **C9.** `detect_repo_type` tries the profiles in a fixed order (ansible,
python, generic) and returns the first whose indicator list is non-empty,
with confidence `min 1 (matches / target)`; with no match the result is
`generic` at confidence 0.5; the confidence always lies in [0, 1]; and a
directory holding only an empty `ansible.cfg` file and an empty `playbooks/`
directory is detected as `ansible` with confidence 2/3 ≥ 0.6 and indicators
containing the `ansible.cfg` path. -/
theorem C9_detect_repo_type (root : String) (fs : Registry.FS) :
    (Registry.ansibleMatches root fs ≠ [] →
      Registry.detect_repo_type root fs =
        { repo_type := .ansible,
          confidence := min 1 (((Registry.ansibleMatches root fs).length : ℚ) / 3),
          indicators := Registry.ansibleMatches root fs }) ∧
    (Registry.ansibleMatches root fs = [] → Registry.pythonMatches root fs ≠ [] →
      Registry.detect_repo_type root fs =
        { repo_type := .python,
          confidence := min 1 (((Registry.pythonMatches root fs).length : ℚ) / 2),
          indicators := Registry.pythonMatches root fs }) ∧
    (Registry.ansibleMatches root fs = [] → Registry.pythonMatches root fs = [] →
      Registry.detect_repo_type root fs =
        { repo_type := .generic, confidence := 1 / 2, indicators := ["fallback"] }) ∧
    0 ≤ (Registry.detect_repo_type root fs).confidence ∧
    (Registry.detect_repo_type root fs).confidence ≤ 1 ∧
    (Registry.detect_repo_type "tmp"
      ⟨[⟨["ansible.cfg"], false⟩, ⟨["playbooks"], true⟩]⟩).repo_type = .ansible ∧
    (Registry.detect_repo_type "tmp"
      ⟨[⟨["ansible.cfg"], false⟩, ⟨["playbooks"], true⟩]⟩).confidence = 2 / 3 ∧
    (3 / 5 : ℚ) ≤ (Registry.detect_repo_type "tmp"
      ⟨[⟨["ansible.cfg"], false⟩, ⟨["playbooks"], true⟩]⟩).confidence ∧
    "tmp/ansible.cfg" ∈ (Registry.detect_repo_type "tmp"
      ⟨[⟨["ansible.cfg"], false⟩, ⟨["playbooks"], true⟩]⟩).indicators := by
  have ham : Registry.ansibleMatches "tmp"
      ⟨[⟨["ansible.cfg"], false⟩, ⟨["playbooks"], true⟩]⟩ =
      ["tmp/ansible.cfg", "tmp/playbooks"] := by decide
  have hconc : Registry.detect_repo_type "tmp"
      ⟨[⟨["ansible.cfg"], false⟩, ⟨["playbooks"], true⟩]⟩ =
      { repo_type := .ansible, confidence := min 1 ((2 : ℚ) / 3),
        indicators := ["tmp/ansible.cfg", "tmp/playbooks"] } := by
    simp only [Registry.detect_repo_type, ham]
    norm_num
  have hmin : min 1 ((2 : ℚ) / 3) = 2 / 3 := by
    rw [min_def]
    norm_num
  have hbounds : 0 ≤ (Registry.detect_repo_type root fs).confidence ∧
      (Registry.detect_repo_type root fs).confidence ≤ 1 := by
    simp only [Registry.detect_repo_type]
    split_ifs with h1 h2
    · exact ⟨le_min (by norm_num) (by positivity), min_le_left _ _⟩
    · exact ⟨le_min (by norm_num) (by positivity), min_le_left _ _⟩
    · norm_num
  refine ⟨?_, ?_, ?_, hbounds.1, hbounds.2, ?_, ?_, ?_, ?_⟩
  · intro h
    simp only [Registry.detect_repo_type]
    rw [if_pos (by simpa using h)]
  · intro h1 h2
    simp only [Registry.detect_repo_type]
    rw [if_neg (by simpa using h1), if_pos (by simpa using h2)]
  · intro h1 h2
    simp only [Registry.detect_repo_type]
    rw [if_neg (by simpa using h1), if_neg (by simpa using h2)]
  · rw [hconc]
  · rw [hconc]; exact hmin
  · rw [hconc]; simp only [hmin]; norm_num
  · rw [hconc]; simp

/-- Witness for C9: the generic fallback clause at an empty filesystem. -/
theorem C9_detect_repo_type_witness :
    Registry.ansibleMatches "r" ⟨[]⟩ = [] ∧ Registry.pythonMatches "r" ⟨[]⟩ = [] ∧
    Registry.detect_repo_type "r" ⟨[]⟩ =
      { repo_type := .generic, confidence := 1 / 2, indicators := ["fallback"] } :=
  ⟨by decide, by decide,
   (C9_detect_repo_type "r" ⟨[]⟩).2.2.1 (by decide) (by decide)⟩

/-! ### C8 — rate limiting on the RPC surface

The claim as stated fails on the code: `MCPServerApp.__call__` handles
`POST /messages` (the tool-invocation channel) and `GET /sse` *before* the
rate-limit check, so tool invocations bypass the limiter entirely and their
responses carry no rate-limit headers.  The counterexample exhibits this at a
concrete exhausted limiter state; the amended theorem states what the code
does. -/

/-- **C8 (counterexample).** With the client's token bucket empty (any further
request should be rate-limited under the claim), a `POST /messages` tool
invocation is still dispatched to the messages handler: it is not answered
with 429, the limiter state is not even consulted (it is returned unchanged),
and the response is not a header-wrapped forward — refuting both "every tool
invocation passes through the rate-limit check" and "responses to POST
/messages carry the X-RateLimit headers". -/
theorem C8_counterexample :
    HttpServer.appCall ⟨60, 10⟩ RateLimiter.exhaustedState HttpServer.msgScope 0 =
      (.messages, RateLimiter.exhaustedState) := rfl

/-- **C8 (amended).** Only HTTP requests other than `GET /sse` and
`POST /messages` pass through the rate-limit check: a refused request is
answered with 429 carrying `Retry-After` and `X-RateLimit-Remaining: 0`, an
admitted one is forwarded with `X-RateLimit-Remaining` and `X-RateLimit-Limit`
headers — while `POST /messages` and `GET /sse` requests bypass the limiter
with its state untouched and no headers attached. -/
theorem C8_rate_limit_routing (rl : RateLimiter.Limiter) (st : RateLimiter.LimiterState)
    (scope : HttpServer.AsgiScope) (now : ℚ)
    (hhttp : scope.scopeType = "http")
    (hsse : ¬(scope.path = "/sse" ∧ scope.method = "GET"))
    (hmsg : ¬(scope.path = "/messages" ∧ scope.method = "POST")) :
    ((RateLimiter.allow rl st (HttpServer.get_client_id scope) now).1 = false →
      HttpServer.appCall rl st scope now =
        (.rateLimited 429
          [("Retry-After",
            toString (RateLimiter.pyInt (RateLimiter.get_retry_after rl
              (RateLimiter.allow rl st (HttpServer.get_client_id scope) now).2
              (HttpServer.get_client_id scope)) + 1)),
           ("X-RateLimit-Remaining", "0")],
         (RateLimiter.allow rl st (HttpServer.get_client_id scope) now).2)) ∧
    ((RateLimiter.allow rl st (HttpServer.get_client_id scope) now).1 = true →
      HttpServer.appCall rl st scope now =
        (.forwarded
          [("x-ratelimit-remaining",
            toString (RateLimiter.get_remaining rl
              (RateLimiter.allow rl st (HttpServer.get_client_id scope) now).2
              (HttpServer.get_client_id scope) now).1),
           ("x-ratelimit-limit", "100")],
         (RateLimiter.get_remaining rl
           (RateLimiter.allow rl st (HttpServer.get_client_id scope) now).2
           (HttpServer.get_client_id scope) now).2)) ∧
    HttpServer.appCall rl st
      { scope with path := "/messages", method := "POST" } now = (.messages, st) ∧
    HttpServer.appCall rl st
      { scope with path := "/sse", method := "GET" } now = (.sse, st) := by
  have h1 : (scope.path == "/sse" && scope.method == "GET") = false := by
    by_cases hp : scope.path = "/sse"
    · by_cases hm : scope.method = "GET"
      · exact absurd ⟨hp, hm⟩ hsse
      · simp [hm]
    · simp [hp]
  have h2 : (scope.path == "/messages" && scope.method == "POST") = false := by
    by_cases hp : scope.path = "/messages"
    · by_cases hm : scope.method = "POST"
      · exact absurd ⟨hp, hm⟩ hmsg
      · simp [hm]
    · simp [hp]
  refine ⟨?_, ?_, ?_, ?_⟩
  · intro hallow
    simp [HttpServer.appCall, hhttp, h1, h2, hallow]
  · intro hallow
    simp [HttpServer.appCall, hhttp, h1, h2, hallow]
  · simp [HttpServer.appCall, hhttp]
  · simp [HttpServer.appCall, hhttp]

/-- Witness for C8 (amended): a `GET /health` from a client with an empty
bucket is answered 429 with `Retry-After: 2` (refill rate one token per
second) and `X-RateLimit-Remaining: 0`. -/
theorem C8_rate_limit_routing_witness :
    (RateLimiter.allow ⟨60, 10⟩ RateLimiter.exhaustedState
      (HttpServer.get_client_id HttpServer.healthScope) 0).1 = false ∧
    HttpServer.appCall ⟨60, 10⟩ RateLimiter.exhaustedState HttpServer.healthScope 0 =
      (.rateLimited 429 [("Retry-After", "2"), ("X-RateLimit-Remaining", "0")],
       (RateLimiter.allow ⟨60, 10⟩ RateLimiter.exhaustedState
         (HttpServer.get_client_id HttpServer.healthScope) 0).2) := by
  have hallow : (RateLimiter.allow ⟨60, 10⟩ RateLimiter.exhaustedState
      (HttpServer.get_client_id HttpServer.healthScope) 0).1 = false := by
    simp [RateLimiter.allow, RateLimiter.refill, RateLimiter.exhaustedState]
    norm_num
  have happ := (C8_rate_limit_routing ⟨60, 10⟩ RateLimiter.exhaustedState
    HttpServer.healthScope 0 rfl (by simp [HttpServer.healthScope])
    (by simp [HttpServer.healthScope])).1 hallow
  refine ⟨hallow, ?_⟩
  rw [happ]
  have hretry : RateLimiter.get_retry_after ⟨60, 10⟩
      (RateLimiter.allow ⟨60, 10⟩ RateLimiter.exhaustedState
        (HttpServer.get_client_id HttpServer.healthScope) 0).2
      (HttpServer.get_client_id HttpServer.healthScope) = 1 := by
    simp [RateLimiter.allow, RateLimiter.refill, RateLimiter.get_retry_after,
      RateLimiter.exhaustedState]
    norm_num
  rw [hretry]
  norm_num [RateLimiter.pyInt]
  rfl

/-! ### C4 — circuit breaker

The state machine matches the spec except for the probe count: `allow_request`
admits every request while the breaker is HALF_OPEN (nothing consumes the
probe), so two consecutive calls in HALF_OPEN are both admitted. -/

theorem CB_step_preserves_config (b : CircuitBreaker.Breaker) (e : CircuitBreaker.CBEvent) :
    (CircuitBreaker.step b e).failure_threshold = b.failure_threshold ∧
    (CircuitBreaker.step b e).recovery_timeout = b.recovery_timeout := by
  cases e with
  | success => exact ⟨rfl, rfl⟩
  | failure t => exact ⟨rfl, rfl⟩
  | allow t =>
    simp only [CircuitBreaker.step, CircuitBreaker.allow_request, CircuitBreaker.stateAt]
    rcases hs : b.stateRaw <;> rcases hl : b.last_failure_time <;> simp
    split <;> simp

theorem CB_run_preserves_config (events : List CircuitBreaker.CBEvent) :
    ∀ b : CircuitBreaker.Breaker,
      (CircuitBreaker.runEvents b events).failure_threshold = b.failure_threshold := by
  induction events with
  | nil => intro b; rfl
  | cons e es ih =>
    intro b
    simp only [CircuitBreaker.runEvents, List.foldl_cons] at *
    rw [ih (CircuitBreaker.step b e), (CB_step_preserves_config b e).1]

theorem CB_failures_from_opened (ts : List ℚ) :
    ∀ b : CircuitBreaker.Breaker, b.stateRaw = .opened →
      b.failure_threshold ≤ b.failure_count →
      (CircuitBreaker.runEvents b (ts.map .failure)).stateRaw = .opened ∧
      (CircuitBreaker.runEvents b (ts.map .failure)).failure_count =
        b.failure_count + ts.length := by
  induction ts with
  | nil => intro b hs _; exact ⟨hs, rfl⟩
  | cons t ts ih =>
    intro b hs hc
    simp only [List.map_cons, CircuitBreaker.runEvents, List.foldl_cons]
    have hstep : CircuitBreaker.step b (.failure t) =
        { b with
          failure_count := b.failure_count + 1
          last_failure_time := some t
          stateRaw := .opened } := by
      simp only [CircuitBreaker.step, CircuitBreaker.record_failure]
      rw [if_pos (by omega)]
    rw [hstep]
    have := ih { b with
      failure_count := b.failure_count + 1
      last_failure_time := some t
      stateRaw := .opened } rfl (by simp; omega)
    simp only [CircuitBreaker.runEvents] at this
    refine ⟨this.1, ?_⟩
    rw [this.2]
    simp [List.length_cons]
    omega

theorem CB_failures_from_closed (ts : List ℚ) :
    ∀ b : CircuitBreaker.Breaker, b.stateRaw = .closed →
      (CircuitBreaker.runEvents b (ts.map .failure)).failure_count =
        b.failure_count + ts.length ∧
      (CircuitBreaker.runEvents b (ts.map .failure)).stateRaw =
        (if b.failure_threshold ≤ b.failure_count + ts.length ∧ ts ≠ [] then .opened
         else .closed) := by
  induction ts with
  | nil =>
    intro b hs
    refine ⟨rfl, ?_⟩
    rw [if_neg (by simp)]
    exact hs
  | cons t ts ih =>
    intro b hs
    simp only [List.map_cons, CircuitBreaker.runEvents, List.foldl_cons]
    by_cases hcond : b.failure_threshold ≤ b.failure_count + 1
    · have hstep : CircuitBreaker.step b (.failure t) =
          { b with
            failure_count := b.failure_count + 1
            last_failure_time := some t
            stateRaw := .opened } := by
        simp only [CircuitBreaker.step, CircuitBreaker.record_failure]
        rw [if_pos hcond]
      rw [hstep]
      have := CB_failures_from_opened ts
        { b with
          failure_count := b.failure_count + 1
          last_failure_time := some t
          stateRaw := .opened } rfl (by simpa using hcond)
      simp only [CircuitBreaker.runEvents] at this
      refine ⟨by rw [this.2]; simp [List.length_cons]; omega, ?_⟩
      rw [this.1, if_pos]
      exact ⟨by simp [List.length_cons]; omega, by simp⟩
    · have hstep : CircuitBreaker.step b (.failure t) =
          { b with
            failure_count := b.failure_count + 1
            last_failure_time := some t
            stateRaw := b.stateRaw } := by
        simp only [CircuitBreaker.step, CircuitBreaker.record_failure]
        rw [if_neg hcond]
      rw [hstep]
      have := ih { b with
        failure_count := b.failure_count + 1
        last_failure_time := some t
        stateRaw := b.stateRaw } (by simpa using hs)
      simp only [CircuitBreaker.runEvents] at this
      refine ⟨by rw [this.1]; simp [List.length_cons]; omega, ?_⟩
      rw [this.2]
      rcases List.eq_nil_or_concat' ts with rfl | ⟨ts', t', rfl⟩
      · rw [if_neg (by simpa using hcond), if_neg (by simp; omega)]
      · have hne : ts' ++ [t'] ≠ [] := by simp
        have hne2 : t :: (ts' ++ [t']) ≠ [] := by simp
        simp only [hne, hne2, and_true, ne_eq, not_false_iff]
        have : b.failure_count + 1 + (ts' ++ [t']).length =
            b.failure_count + (t :: (ts' ++ [t'])).length := by
          simp [List.length_cons]; omega
        rw [this]

/-- Exhaustive behavior of the `state` property: either it leaves the breaker
unchanged, or the breaker was OPEN with the recovery timeout elapsed and it
moved to HALF_OPEN. -/
theorem CB_stateAt_cases (b : CircuitBreaker.Breaker) (now : ℚ) :
    CircuitBreaker.stateAt b now = (b.stateRaw, b) ∨
    (b.stateRaw = .opened ∧ ∃ tf, b.last_failure_time = some tf ∧
      b.recovery_timeout ≤ now - tf ∧
      CircuitBreaker.stateAt b now = (.halfOpen, { b with stateRaw := .halfOpen })) := by
  rcases hs : b.stateRaw with _ | _ | _ <;> rcases hl : b.last_failure_time with _ | tf <;>
    (unfold CircuitBreaker.stateAt; rw [hs, hl])
  · exact Or.inl rfl
  · exact Or.inl rfl
  · exact Or.inl rfl
  · by_cases hc : b.recovery_timeout ≤ now - tf
    · exact Or.inr ⟨rfl, tf, rfl, hc, if_pos hc⟩
    · exact Or.inl (if_neg hc)
  · exact Or.inl rfl
  · exact Or.inl rfl

theorem CB_inv_step (b : CircuitBreaker.Breaker) (e : CircuitBreaker.CBEvent)
    (h : b.stateRaw ≠ .closed → b.failure_threshold ≤ b.failure_count) :
    (CircuitBreaker.step b e).stateRaw ≠ .closed →
      (CircuitBreaker.step b e).failure_threshold ≤ (CircuitBreaker.step b e).failure_count := by
  cases e with
  | success => intro hne; exact absurd rfl hne
  | failure t =>
    simp only [CircuitBreaker.step, CircuitBreaker.record_failure]
    intro hne
    split at hne
    · simpa using (by assumption : b.failure_threshold ≤ b.failure_count + 1)
    · have := h hne
      simp
      omega
  | allow t =>
    have hstep : CircuitBreaker.step b (.allow t) = (CircuitBreaker.stateAt b t).2 := rfl
    rcases CB_stateAt_cases b t with hcase | ⟨hop, tf, _, _, hcase⟩
    · rw [hstep, hcase]
      exact h
    · rw [hstep, hcase]
      intro _
      exact h (by rw [hop]; simp)

theorem CB_inv_run (events : List CircuitBreaker.CBEvent) :
    ∀ b : CircuitBreaker.Breaker,
      (b.stateRaw ≠ .closed → b.failure_threshold ≤ b.failure_count) →
      ((CircuitBreaker.runEvents b events).stateRaw ≠ .closed →
        (CircuitBreaker.runEvents b events).failure_threshold ≤
          (CircuitBreaker.runEvents b events).failure_count) := by
  induction events with
  | nil => intro b h; exact h
  | cons e es ih =>
    intro b h
    simp only [CircuitBreaker.runEvents, List.foldl_cons] at *
    exact ih (CircuitBreaker.step b e) (CB_inv_step b e h)

/-- **C4 (counterexample).** With threshold 1 and recovery timeout 30 s, after
one failure at time 0 the breaker is OPEN; at time 30 a first `allow_request`
transitions it to HALF_OPEN and admits the request — and a second
`allow_request`, with no success or failure recorded in between, is *also*
admitted while the breaker is still HALF_OPEN.  This refutes "in HALF_OPEN
exactly one probe request is admitted". -/
theorem C4_counterexample :
    ((CircuitBreaker.allow_request
      (CircuitBreaker.record_failure (CircuitBreaker.mkBreaker 1 30) 0) 30).1 = true) ∧
    ((CircuitBreaker.allow_request
      (CircuitBreaker.record_failure (CircuitBreaker.mkBreaker 1 30) 0) 30).2.stateRaw =
        .halfOpen) ∧
    ((CircuitBreaker.allow_request
      ((CircuitBreaker.allow_request
        (CircuitBreaker.record_failure (CircuitBreaker.mkBreaker 1 30) 0) 30).2) 30).1 =
        true) ∧
    ((CircuitBreaker.allow_request
      ((CircuitBreaker.allow_request
        (CircuitBreaker.record_failure (CircuitBreaker.mkBreaker 1 30) 0) 30).2) 30).2.stateRaw =
        .halfOpen) := by
  have hfail : CircuitBreaker.record_failure (CircuitBreaker.mkBreaker 1 30) 0 =
      { failure_threshold := 1, recovery_timeout := 30, failure_count := 1,
        last_failure_time := some 0, stateRaw := .opened } := by
    simp [CircuitBreaker.record_failure, CircuitBreaker.mkBreaker]
  have hhalf : ∀ c : Nat, CircuitBreaker.allow_request
      { failure_threshold := 1, recovery_timeout := 30, failure_count := c,
        last_failure_time := some 0,
        stateRaw := CircuitBreaker.CircuitState.opened } 30 =
      (true,
       { failure_threshold := 1, recovery_timeout := 30, failure_count := c,
         last_failure_time := some 0, stateRaw := .halfOpen }) := by
    intro c
    simp only [CircuitBreaker.allow_request, CircuitBreaker.stateAt]
    rw [if_pos (by norm_num)]
    rfl
  have hstay : CircuitBreaker.allow_request
      { failure_threshold := 1, recovery_timeout := 30, failure_count := 1,
        last_failure_time := some 0,
        stateRaw := CircuitBreaker.CircuitState.halfOpen } 30 =
      (true,
       { failure_threshold := 1, recovery_timeout := 30, failure_count := 1,
         last_failure_time := some 0, stateRaw := .halfOpen }) := rfl
  rw [hfail, hhalf 1]
  exact ⟨rfl, rfl, by rw [hstay], by rw [hstay]⟩

/-- **C4 (amended).** The breaker follows the spec's state machine: from fresh
it becomes OPEN exactly when `failure_threshold` consecutive `record_failure`
calls occur; `record_success` zeroes the count and closes; no CLOSED →
HALF_OPEN transition ever occurs; OPEN → HALF_OPEN happens only when at least
`recovery_timeout` seconds elapsed since the last failure; in HALF_OPEN every
request is admitted until an outcome is recorded (the implementation does not
limit the probe count to one), after which `record_success` closes the
breaker and `record_failure` reopens it. -/
theorem C4_circuit_breaker (thr : Nat) (rt : ℚ) (hthr : 1 ≤ thr) (ts : List ℚ)
    (b : CircuitBreaker.Breaker) (e : CircuitBreaker.CBEvent) (now t : ℚ)
    (events : List CircuitBreaker.CBEvent) :
    ((CircuitBreaker.runEvents (CircuitBreaker.mkBreaker thr rt)
        (ts.map .failure)).stateRaw = .opened ↔ thr ≤ ts.length) ∧
    ((CircuitBreaker.record_success b).failure_count = 0 ∧
      (CircuitBreaker.record_success b).stateRaw = .closed) ∧
    (b.stateRaw = .closed → (CircuitBreaker.step b e).stateRaw ≠ .halfOpen) ∧
    (b.stateRaw = .opened → (CircuitBreaker.stateAt b now).1 = .halfOpen →
      ∃ tf, b.last_failure_time = some tf ∧ b.recovery_timeout ≤ now - tf) ∧
    (b.stateRaw = .halfOpen → (CircuitBreaker.allow_request b now).1 = true) ∧
    ((CircuitBreaker.runEvents (CircuitBreaker.mkBreaker thr rt) events).stateRaw =
        .halfOpen →
      (CircuitBreaker.record_failure
        (CircuitBreaker.runEvents (CircuitBreaker.mkBreaker thr rt) events) t).stateRaw =
        .opened) := by
  refine ⟨?_, ⟨rfl, rfl⟩, ?_, ?_, ?_, ?_⟩
  · have h := CB_failures_from_closed ts (CircuitBreaker.mkBreaker thr rt) rfl
    rw [h.2]
    constructor
    · intro hop
      by_cases hc : thr ≤ 0 + ts.length ∧ ts ≠ []
      · simpa [CircuitBreaker.mkBreaker] using hc.1
      · rw [if_neg (by simpa [CircuitBreaker.mkBreaker] using hc)] at hop
        exact absurd hop (by simp)
    · intro hlen
      rw [if_pos]
      refine ⟨by simpa [CircuitBreaker.mkBreaker] using hlen, ?_⟩
      intro hnil
      rw [hnil] at hlen
      simp at hlen
      omega
  · intro hclosed
    cases e with
    | success => simp [CircuitBreaker.step, CircuitBreaker.record_success]
    | failure tf =>
      simp only [CircuitBreaker.step, CircuitBreaker.record_failure]
      split <;> simp [hclosed]
    | allow tf =>
      simp only [CircuitBreaker.step, CircuitBreaker.allow_request, CircuitBreaker.stateAt,
        hclosed]
      rcases b.last_failure_time <;> simp
  · intro hopen hhalf
    rcases CB_stateAt_cases b now with hcase | ⟨_, tf, hltime, hc, _⟩
    · rw [hcase] at hhalf
      rw [hopen] at hhalf
      simp at hhalf
    · exact ⟨tf, hltime, hc⟩
  · intro hhalf
    simp only [CircuitBreaker.allow_request, CircuitBreaker.stateAt, hhalf]
    rcases b.last_failure_time <;> simp
  · intro hhalf
    have hinv := CB_inv_run events (CircuitBreaker.mkBreaker thr rt)
      (fun hne => absurd rfl hne) (by rw [hhalf]; simp)
    simp only [CircuitBreaker.record_failure]
    rw [if_pos (by omega)]

/-- Witness for C4 (amended): with threshold 3, three failures open the
breaker; after the 30 s recovery window one `allow_request` moves it to
HALF_OPEN, from which a recorded failure reopens it. -/
theorem C4_circuit_breaker_witness :
    (CircuitBreaker.runEvents (CircuitBreaker.mkBreaker 3 30)
      ([0, 0, 0].map .failure)).stateRaw = .opened ∧
    (CircuitBreaker.runEvents (CircuitBreaker.mkBreaker 3 30)
      [.failure 0, .failure 0, .failure 0, .allow 30]).stateRaw = .halfOpen ∧
    (CircuitBreaker.record_failure
      (CircuitBreaker.runEvents (CircuitBreaker.mkBreaker 3 30)
        [.failure 0, .failure 0, .failure 0, .allow 30]) 99).stateRaw = .opened := by
  have hhalf : (CircuitBreaker.runEvents (CircuitBreaker.mkBreaker 3 30)
      [.failure 0, .failure 0, .failure 0, .allow 30]).stateRaw = .halfOpen := by
    have h3 : CircuitBreaker.runEvents (CircuitBreaker.mkBreaker 3 30)
        [.failure 0, .failure 0, .failure 0] =
        { failure_threshold := 3, recovery_timeout := 30, failure_count := 3,
          last_failure_time := some 0, stateRaw := .opened } := by
      simp [CircuitBreaker.runEvents, CircuitBreaker.step, CircuitBreaker.record_failure,
        CircuitBreaker.mkBreaker]
    have : CircuitBreaker.runEvents (CircuitBreaker.mkBreaker 3 30)
        [.failure 0, .failure 0, .failure 0, .allow 30] =
        CircuitBreaker.step (CircuitBreaker.runEvents (CircuitBreaker.mkBreaker 3 30)
          [.failure 0, .failure 0, .failure 0]) (.allow 30) := by
      simp [CircuitBreaker.runEvents]
    rw [this, h3]
    simp only [CircuitBreaker.step, CircuitBreaker.allow_request, CircuitBreaker.stateAt]
    rw [if_pos (by norm_num)]
  refine ⟨?_, hhalf, ?_⟩
  · exact (C4_circuit_breaker 3 30 (by norm_num) [0, 0, 0] (CircuitBreaker.mkBreaker 3 30)
      .success 0 0 []).1.mpr (by norm_num)
  · exact (C4_circuit_breaker 3 30 (by norm_num) [] (CircuitBreaker.mkBreaker 3 30)
      .success 0 99 [.failure 0, .failure 0, .failure 0, .allow 30]).2.2.2.2.2 hhalf

/-! ### C7 — token-bucket rate limiter -/

theorem RL_simulate_cons (rl : RateLimiter.Limiter) (st : RateLimiter.LimiterState)
    (c : String) (t : ℚ) (rest : List (String × ℚ)) :
    RateLimiter.simulate rl st ((c, t) :: rest) =
      (c, t, (RateLimiter.allow rl st c t).1) ::
        RateLimiter.simulate rl (RateLimiter.allow rl st c t).2 rest := rfl

theorem RL_countWindow_cons (c : String) (T : ℚ) (e : String × ℚ × Bool)
    (l : List (String × ℚ × Bool)) :
    RateLimiter.countWindow c T (e :: l) =
      (if (e.1 == c && decide (T ≤ e.2.1) && decide (e.2.1 ≤ T + 60) && e.2.2) = true
       then 1 else 0) + RateLimiter.countWindow c T l := by
  simp only [RateLimiter.countWindow, List.filter_cons]
  split <;> simp <;> omega

/-- `allow` for a different client leaves this client's bucket and timestamp
untouched. -/
theorem RL_allow_other (rl : RateLimiter.Limiter) (st : RateLimiter.LimiterState)
    (c c' : String) (t : ℚ) (hne : c' ≠ c) :
    (RateLimiter.allow rl st c' t).2.buckets c = st.buckets c ∧
    (RateLimiter.allow rl st c' t).2.last_update c = st.last_update c := by
  have hcc : ¬(c = c') := fun h => hne h.symm
  rcases h : st.last_update c' with _ | last <;>
    simp only [RateLimiter.allow, RateLimiter.refill, h] <;>
    split_ifs <;> simp [hcc]

/-- `allow` for this client when it has a previous timestamp. -/
theorem RL_allow_self (rl : RateLimiter.Limiter) (st : RateLimiter.LimiterState)
    (c : String) (t last : ℚ) (h : st.last_update c = some last) :
    ((RateLimiter.allow rl st c t).1 =
      decide (1 ≤ min (st.buckets c + (t - last) * ((rl.requests_per_minute : ℚ) / 60))
        (rl.burst_size : ℚ))) ∧
    ((RateLimiter.allow rl st c t).2.buckets c =
      (if 1 ≤ min (st.buckets c + (t - last) * ((rl.requests_per_minute : ℚ) / 60))
          (rl.burst_size : ℚ)
       then min (st.buckets c + (t - last) * ((rl.requests_per_minute : ℚ) / 60))
          (rl.burst_size : ℚ) - 1
       else min (st.buckets c + (t - last) * ((rl.requests_per_minute : ℚ) / 60))
          (rl.burst_size : ℚ))) ∧
    (RateLimiter.allow rl st c t).2.last_update c = some t := by
  refine ⟨?_, ?_, ?_⟩ <;>
    simp only [RateLimiter.allow, RateLimiter.refill, h] <;>
    split_ifs with hc <;> simp [hc]

/-- `allow` for this client on its first request. -/
theorem RL_allow_init (rl : RateLimiter.Limiter) (st : RateLimiter.LimiterState)
    (c : String) (t : ℚ) (h : st.last_update c = none) :
    ((RateLimiter.allow rl st c t).1 = decide (1 ≤ (rl.burst_size : ℚ))) ∧
    ((RateLimiter.allow rl st c t).2.buckets c =
      (if 1 ≤ (rl.burst_size : ℚ) then (rl.burst_size : ℚ) - 1 else (rl.burst_size : ℚ))) ∧
    (RateLimiter.allow rl st c t).2.last_update c = some t := by
  refine ⟨?_, ?_, ?_⟩ <;>
    simp only [RateLimiter.allow, RateLimiter.refill, h] <;>
    split_ifs with hc <;> simp [hc]

/-- Calls entirely beyond the window contribute no admitted request to it. -/
theorem RL_count_zero (rl : RateLimiter.Limiter) (c : String) (T : ℚ)
    (trace : List (String × ℚ)) :
    ∀ st : RateLimiter.LimiterState, (∀ e ∈ trace, ¬e.2 ≤ T + 60) →
      RateLimiter.countWindow c T (RateLimiter.simulate rl st trace) = 0 := by
  induction trace with
  | nil => intro st _; rfl
  | cons e rest ih =>
    intro st hmem
    obtain ⟨c', t⟩ := e
    rw [RL_simulate_cons, RL_countWindow_cons]
    have ht : ¬t ≤ T + 60 := hmem (c', t) (List.mem_cons_self _ _)
    rw [if_neg (by simp [ht])]
    simpa using ih _ (fun e he => hmem e (List.mem_cons_of_mem _ he))

/-- Window-phase bound: once the client's last update lies in the window, the
still-possible admits are bounded by the current tokens plus the refill over
the rest of the window. -/
theorem RL_window_phase (rl : RateLimiter.Limiter) (c : String) (T : ℚ)
    (trace : List (String × ℚ)) :
    ∀ (st : RateLimiter.LimiterState) (tok last : ℚ),
      st.buckets c = tok → st.last_update c = some last → 0 ≤ tok →
      T ≤ last → last ≤ T + 60 →
      (∀ e ∈ trace, last ≤ e.2) →
      trace.Pairwise (fun a b => a.2 ≤ b.2) →
      (RateLimiter.countWindow c T (RateLimiter.simulate rl st trace) : ℚ) ≤
        tok + (T + 60 - last) * ((rl.requests_per_minute : ℚ) / 60) := by
  induction trace with
  | nil =>
    intro st tok last hb hl htok hT hT60 _ _
    have hrate : 0 ≤ (rl.requests_per_minute : ℚ) / 60 := by positivity
    simp only [RateLimiter.simulate, RateLimiter.countWindow, List.filter_nil,
      List.length_nil, Nat.cast_zero]
    nlinarith
  | cons e rest ih =>
    intro st tok last hb hl htok hT hT60 hmem hpair
    obtain ⟨c', t⟩ := e
    have hrate : 0 ≤ (rl.requests_per_minute : ℚ) / 60 := by positivity
    have hburst : 0 ≤ (rl.burst_size : ℚ) := by positivity
    have hlt : last ≤ t := hmem (c', t) (List.mem_cons_self _ _)
    have hrest_mono : ∀ e ∈ rest, t ≤ e.2 := fun e he =>
      (List.pairwise_cons.1 hpair).1 e he
    have hrest_pair : rest.Pairwise (fun a b => a.2 ≤ b.2) :=
      (List.pairwise_cons.1 hpair).2
    rw [RL_simulate_cons, RL_countWindow_cons]
    by_cases hcc : c' = c
    · subst hcc
      obtain ⟨hfst, hbuck, hlast⟩ := RL_allow_self rl st c' t last hl
      rw [hb] at hfst hbuck
      set tokens := min (tok + (t - last) * ((rl.requests_per_minute : ℚ) / 60))
        (rl.burst_size : ℚ) with htokens
      have htoknn : 0 ≤ tokens := by
        apply le_min
        · nlinarith
        · exact hburst
      have hminle : tokens ≤ tok + (t - last) * ((rl.requests_per_minute : ℚ) / 60) :=
        min_le_left _ _
      by_cases hwin : t ≤ T + 60
      · rcases le_or_lt 1 tokens with hadm | hadm
        · have hcond : (c' == c' && decide (T ≤ t) && decide (t ≤ T + 60) &&
              (RateLimiter.allow rl st c' t).1) = true := by
            rw [hfst]
            simp [hT.trans hlt, hwin, hadm]
          rw [if_pos hcond]
          have hrec := ih (RateLimiter.allow rl st c' t).2 (tokens - 1) t
            (by rw [hbuck, if_pos hadm]) hlast (by linarith) (hT.trans hlt) hwin
            hrest_mono hrest_pair
          push_cast
          have hring : (t - last) * ((rl.requests_per_minute : ℚ) / 60) +
              (T + 60 - t) * ((rl.requests_per_minute : ℚ) / 60) =
              (T + 60 - last) * ((rl.requests_per_minute : ℚ) / 60) := by ring
          linarith
        · rw [hfst, if_neg (by simp [not_le.2 hadm])]
          have hrec := ih (RateLimiter.allow rl st c' t).2 tokens t
            (by rw [hbuck, if_neg (not_le.2 hadm)]) hlast htoknn (hT.trans hlt) hwin
            hrest_mono hrest_pair
          push_cast
          have hring : (t - last) * ((rl.requests_per_minute : ℚ) / 60) +
              (T + 60 - t) * ((rl.requests_per_minute : ℚ) / 60) =
              (T + 60 - last) * ((rl.requests_per_minute : ℚ) / 60) := by ring
          linarith
      · rw [if_neg (by simp [hwin])]
        have hz := RL_count_zero rl c' T rest (RateLimiter.allow rl st c' t).2
          (fun e he hle => hwin (le_trans (hrest_mono e he) hle))
        rw [hz]
        push_cast
        nlinarith
    · have hother := RL_allow_other rl st c c' t hcc
      have hcond : (c' == c && decide (T ≤ t) && decide (t ≤ T + 60) &&
          (RateLimiter.allow rl st c' t).1) = false := by
        simp [hcc]
      rw [if_neg (by simp [hcond])]
      have hrec := ih (RateLimiter.allow rl st c' t).2 tok last
        (hother.1.trans hb) (hother.2.trans hl) htok hT hT60
        (fun e he => le_trans hlt (hrest_mono e he)) hrest_pair
      simpa using hrec

/-- Full bound from any state whose bucket for the client is within
[0, burst]: at most `burst + rpm` admits land in any 60-second window. -/
theorem RL_outer (rl : RateLimiter.Limiter) (c : String) (T : ℚ)
    (trace : List (String × ℚ)) :
    ∀ st : RateLimiter.LimiterState,
      0 ≤ st.buckets c → st.buckets c ≤ (rl.burst_size : ℚ) →
      (∀ l, st.last_update c = some l → ∀ e ∈ trace, l ≤ e.2) →
      trace.Pairwise (fun a b => a.2 ≤ b.2) →
      (RateLimiter.countWindow c T (RateLimiter.simulate rl st trace) : ℚ) ≤
        (rl.burst_size : ℚ) + (rl.requests_per_minute : ℚ) := by
  induction trace with
  | nil =>
    intro st _ _ _ _
    have : (0 : ℚ) ≤ (rl.burst_size : ℚ) + (rl.requests_per_minute : ℚ) := by positivity
    simpa [RateLimiter.simulate, RateLimiter.countWindow] using this
  | cons e rest ih =>
    intro st hnn hub hlmono hpair
    obtain ⟨c', t⟩ := e
    have hrate : 0 ≤ (rl.requests_per_minute : ℚ) / 60 := by positivity
    have hburst : 0 ≤ (rl.burst_size : ℚ) := by positivity
    have hrpm : 0 ≤ (rl.requests_per_minute : ℚ) := by positivity
    have hrest_mono : ∀ e ∈ rest, t ≤ e.2 := fun e he =>
      (List.pairwise_cons.1 hpair).1 e he
    have hrest_pair : rest.Pairwise (fun a b => a.2 ≤ b.2) :=
      (List.pairwise_cons.1 hpair).2
    rw [RL_simulate_cons, RL_countWindow_cons]
    by_cases hcc : c' = c
    · subst hcc
      -- resulting bucket value and (admitted → admit-entry counted) analysis
      have hself : ∃ tokens : ℚ, 0 ≤ tokens ∧ tokens ≤ (rl.burst_size : ℚ) ∧
          (RateLimiter.allow rl st c' t).1 = decide (1 ≤ tokens) ∧
          (RateLimiter.allow rl st c' t).2.buckets c' =
            (if 1 ≤ tokens then tokens - 1 else tokens) ∧
          (RateLimiter.allow rl st c' t).2.last_update c' = some t := by
        rcases hl : st.last_update c' with _ | last
        · obtain ⟨h1, h2, h3⟩ := RL_allow_init rl st c' t hl
          exact ⟨(rl.burst_size : ℚ), hburst, le_refl _, h1, h2, h3⟩
        · obtain ⟨h1, h2, h3⟩ := RL_allow_self rl st c' t last hl
          refine ⟨_, ?_, min_le_right _ _, h1, h2, h3⟩
          have hlt : last ≤ t := hlmono last hl (c', t) (List.mem_cons_self _ _)
          apply le_min
          · nlinarith
          · exact hburst
      obtain ⟨tokens, htok0, htokb, hfst, hbuck, hlast⟩ := hself
      by_cases hbefore : t < T
      · rw [if_neg (by simp [not_le.2 hbefore])]
        have hrec := ih (RateLimiter.allow rl st c' t).2
          (by rw [hbuck]; split_ifs with h1 <;> [linarith; exact htok0])
          (by rw [hbuck]; split_ifs with h1 <;> [linarith; exact htokb])
          (fun l hlu e he => by
            rw [hlast] at hlu
            injection hlu with hlu
            exact hlu ▸ hrest_mono e he)
          hrest_pair
        simpa using hrec
      · push_neg at hbefore
        by_cases hwin : t ≤ T + 60
        · have hphase := RL_window_phase rl c' T rest (RateLimiter.allow rl st c' t).2
            (if 1 ≤ tokens then tokens - 1 else tokens) t
            (by rw [hbuck]) hlast
            (by split_ifs with h1 <;> [linarith; exact htok0]) hbefore hwin
            hrest_mono hrest_pair
          have hwindow_rate : (T + 60 - t) * ((rl.requests_per_minute : ℚ) / 60) ≤
              (rl.requests_per_minute : ℚ) := by
            have h60 : T + 60 - t ≤ 60 := by linarith
            nlinarith
          rcases le_or_lt 1 tokens with hadm | hadm
          · rw [if_pos (by rw [hfst]; simp [hbefore, hwin, hadm])]
            rw [if_pos hadm] at hphase
            push_cast
            linarith
          · rw [if_neg (by rw [hfst]; simp [not_le.2 hadm])]
            rw [if_neg (not_le.2 hadm)] at hphase
            push_cast
            linarith
        · rw [if_neg (by simp [hwin])]
          have hz := RL_count_zero rl c' T rest (RateLimiter.allow rl st c' t).2
            (fun e he hle => hwin (le_trans (hrest_mono e he) hle))
          rw [hz]
          push_cast
          positivity
    · have hother := RL_allow_other rl st c c' t hcc
      rw [if_neg (by simp [hcc])]
      have hrec := ih (RateLimiter.allow rl st c' t).2
        (by rw [hother.1]; exact hnn) (by rw [hother.1]; exact hub)
        (fun l hl e he => hlmono l (hother.2 ▸ hl) e (List.mem_cons_of_mem _ he))
        hrest_pair
      simpa using hrec

/-- **C7.** The token-bucket limiter admits exactly 5 immediate requests for a
new client and refuses the 6th when `requests_per_minute = 10, burst_size =
5`; with `requests_per_minute = 600, burst_size = 5` one further request is
admitted 0.2 s after 5 immediate ones; and for every client, every start
time `T`, and every clock-monotone call trace from a fresh limiter, the
number of admitted requests falling in `[T, T + 60]` is at most
`requests_per_minute + burst_size`. -/
theorem C7_rate_limiter (trace : List (String × ℚ)) (c : String) (T : ℚ)
    (hsorted : trace.Pairwise (fun a b => a.2 ≤ b.2)) :
    (RateLimiter.simulate ⟨10, 5⟩ RateLimiter.initState
      [("c", 0), ("c", 0), ("c", 0), ("c", 0), ("c", 0), ("c", 0)]).map (fun e => e.2.2) =
      [true, true, true, true, true, false] ∧
    (RateLimiter.simulate ⟨600, 5⟩ RateLimiter.initState
      [("c", 0), ("c", 0), ("c", 0), ("c", 0), ("c", 0), ("c", 1 / 5)]).map
        (fun e => e.2.2) =
      [true, true, true, true, true, true] ∧
    ∀ rl : RateLimiter.Limiter,
      RateLimiter.countWindow c T (RateLimiter.simulate rl RateLimiter.initState trace) ≤
        rl.requests_per_minute + rl.burst_size := by
  refine ⟨?_, ?_, ?_⟩
  · norm_num [RateLimiter.simulate, RateLimiter.allow, RateLimiter.refill,
      RateLimiter.initState, min_def]
  · norm_num [RateLimiter.simulate, RateLimiter.allow, RateLimiter.refill,
      RateLimiter.initState, min_def]
  · intro rl
    have h := RL_outer rl c T trace RateLimiter.initState
      (by simp [RateLimiter.initState])
      (by simp only [RateLimiter.initState]; positivity)
      (fun l hl => by simp [RateLimiter.initState] at hl)
      hsorted
    have h2 : (RateLimiter.countWindow c T
        (RateLimiter.simulate rl RateLimiter.initState trace) : ℚ) ≤
        ((rl.requests_per_minute + rl.burst_size : ℕ) : ℚ) := by
      push_cast
      linarith
    exact_mod_cast h2

/-- Witness for C7: the window bound applied to a single-call trace. -/
theorem C7_rate_limiter_witness :
    List.Pairwise (fun (a : String × ℚ) (b : String × ℚ) => a.2 ≤ b.2) [("c", (0 : ℚ))] ∧
    RateLimiter.countWindow "c" 0
      (RateLimiter.simulate ⟨10, 5⟩ RateLimiter.initState [("c", 0)]) ≤ 10 + 5 :=
  ⟨List.pairwise_singleton _ _,
   (C7_rate_limiter [("c", 0)] "c" 0 (List.pairwise_singleton _ _)).2.2 ⟨10, 5⟩⟩

/-! ### C1 — Cypher validator -/

/-- A nonempty error list makes the result invalid. -/
theorem validator_invalid_of_mem {e : String} {errors : List String}
    (h : e ∈ errors) : errors.isEmpty = false := by
  cases errors with
  | nil => cases h
  | cons a l => rfl

/-- **C1.** Every query matching a forbidden pattern (mutations, DDL,
administrative or extension procedure calls) is invalid with an error naming
the operation; every query using a node label or relationship type absent
from the schema snapshot is invalid with an unknown-labels /
unknown-relationship-types error; and the spec's three concrete examples
behave exactly as stated. -/
theorem C1_cypher_validator (schema : CypherValidator.GraphSchema) (query : String) :
    (∀ pd ∈ CypherValidator.FORBIDDEN_PATTERNS,
      CypherValidator.patSearch pd.1 query.data = true →
      (CypherValidator.validate schema query).is_valid = false ∧
      ("Forbidden: " ++ pd.2) ∈ (CypherValidator.validate schema query).errors) ∧
    ((∃ l ∈ CypherValidator.labelScan query.data,
        schema.node_labels.contains l = false) →
      (CypherValidator.validate schema query).is_valid = false ∧
      ∃ e ∈ (CypherValidator.validate schema query).errors,
        "Unknown node labels".data.isPrefixOf e.data = true) ∧
    ((∃ r ∈ CypherValidator.relScan query.data,
        schema.relationship_types.contains r = false) →
      (CypherValidator.validate schema query).is_valid = false ∧
      ∃ e ∈ (CypherValidator.validate schema query).errors,
        "Unknown relationship types".data.isPrefixOf e.data = true) ∧
    (CypherValidator.validate exSchema "MATCH (n) DELETE n").is_valid = false ∧
    "Forbidden: DELETE operations" ∈
      (CypherValidator.validate exSchema "MATCH (n) DELETE n").errors ∧
    (CypherValidator.validate exSchema "MATCH (n:FakeNode) RETURN n").is_valid = false ∧
    (∃ e ∈ (CypherValidator.validate exSchema "MATCH (n:FakeNode) RETURN n").errors,
      "Unknown node labels".data.isPrefixOf e.data = true) ∧
    CypherValidator.validate exSchema "MATCH (n:Task) RETURN n LIMIT 10" =
      { is_valid := true, errors := [], warnings := [] } := by
  have hprefix : ∀ (a b rest : String),
      a.data.isPrefixOf (a ++ b ++ rest).data = true := by
    intro a b rest
    rw [List.isPrefixOf_iff_prefix, String.data_append, String.data_append,
      List.append_assoc]
    exact List.prefix_append _ _
  refine ⟨?_, ?_, ?_, by decide, by decide, by decide, by decide, by decide⟩
  · intro pd hpd hsearch
    have hmem : ("Forbidden: " ++ pd.2) ∈
        (CypherValidator.validate schema query).errors := by
      simp only [CypherValidator.validate]
      refine List.mem_append.2 (Or.inl (List.mem_append.2 (Or.inl ?_)))
      exact List.mem_filterMap.2 ⟨pd, hpd, by rw [hsearch]; rfl⟩
    refine ⟨?_, hmem⟩
    simp only [CypherValidator.validate] at hmem ⊢
    exact validator_invalid_of_mem hmem
  · rintro ⟨l, hl, hcont⟩
    have hunk : l ∈ (dedupKeepFirst (CypherValidator.labelScan query.data)).filter
        (fun x => !schema.node_labels.contains x) :=
      List.mem_filter.2 ⟨(mem_dedupKeepFirst _ _).2 hl, by rw [hcont]; rfl⟩
    have hne : ((dedupKeepFirst (CypherValidator.labelScan query.data)).filter
        (fun x => !schema.node_labels.contains x)).isEmpty = false :=
      validator_invalid_of_mem hunk
    have hmem : ("Unknown node labels: " ++ String.intercalate ", "
        ((dedupKeepFirst (CypherValidator.labelScan query.data)).filter
          (fun x => !schema.node_labels.contains x))) ∈
        (CypherValidator.validate schema query).errors := by
      simp only [CypherValidator.validate, hne]
      refine List.mem_append.2 (Or.inl (List.mem_append.2 (Or.inr ?_)))
      simp
    refine ⟨?_, ⟨_, hmem, ?_⟩⟩
    · exact validator_invalid_of_mem hmem
    · have hsplit : ("Unknown node labels: " : String) = "Unknown node labels" ++ ": " := by
        decide
      rw [hsplit]
      exact hprefix "Unknown node labels" ": " _
  · rintro ⟨r, hr, hcont⟩
    have hunk : r ∈ (dedupKeepFirst (CypherValidator.relScan query.data)).filter
        (fun x => !schema.relationship_types.contains x) :=
      List.mem_filter.2 ⟨(mem_dedupKeepFirst _ _).2 hr, by rw [hcont]; rfl⟩
    have hne : ((dedupKeepFirst (CypherValidator.relScan query.data)).filter
        (fun x => !schema.relationship_types.contains x)).isEmpty = false :=
      validator_invalid_of_mem hunk
    have hmem : ("Unknown relationship types: " ++ String.intercalate ", "
        ((dedupKeepFirst (CypherValidator.relScan query.data)).filter
          (fun x => !schema.relationship_types.contains x))) ∈
        (CypherValidator.validate schema query).errors := by
      simp only [CypherValidator.validate, hne]
      refine List.mem_append.2 (Or.inr ?_)
      simp
    refine ⟨?_, ⟨_, hmem, ?_⟩⟩
    · exact validator_invalid_of_mem hmem
    · have hsplit : ("Unknown relationship types: " : String) =
          "Unknown relationship types" ++ ": " := by decide
      rw [hsplit]
      exact hprefix "Unknown relationship types" ": " _

/-- Witness for C1: the forbidden-DELETE clause and the unknown-label clause
instantiated at the spec's own examples. -/
theorem C1_cypher_validator_witness :
    (CypherValidator.CypherPat.word (kwOf "DELETE"), "DELETE operations") ∈
      CypherValidator.FORBIDDEN_PATTERNS ∧
    CypherValidator.patSearch (.word (kwOf "DELETE")) "MATCH (n) DELETE n".data = true ∧
    (CypherValidator.validate exSchema "MATCH (n) DELETE n").is_valid = false ∧
    "FakeNode" ∈ CypherValidator.labelScan "MATCH (n:FakeNode) RETURN n".data ∧
    exSchema.node_labels.contains "FakeNode" = false ∧
    (CypherValidator.validate exSchema "MATCH (n:FakeNode) RETURN n").is_valid = false :=
  ⟨by decide, by decide,
   ((C1_cypher_validator exSchema "MATCH (n) DELETE n").1
     (.word (kwOf "DELETE"), "DELETE operations") (by decide) (by decide)).1,
   by decide, by decide,
   ((C1_cypher_validator exSchema "MATCH (n:FakeNode) RETURN n").2.1
     ⟨"FakeNode", by decide, by decide⟩).1⟩


/-! ### C3: enforce_limit — supporting lemmas -/

section EnforceLimitLemmas

open QueryGuardrails

lemma word_of_kwMatches {k : KwChar} {c : Char} (h : kwMatches k c = true)
    (h1 : isWordChar k.1 = true) (h2 : isWordChar k.2 = true) : isWordChar c = true := by
  simp only [kwMatches, Bool.or_eq_true] at h
  rcases h with h' | h'
  · rw [beq_iff_eq] at h'; rw [h']; exact h1
  · rw [beq_iff_eq] at h'; rw [h']; exact h2

lemma nonword_not_kw {k : KwChar} {c : Char} (hc : isWordChar c = false)
    (h1 : isWordChar k.1 = true) (h2 : isWordChar k.2 = true) : kwMatches k c = false := by
  cases hkw : kwMatches k c with
  | false => rfl
  | true => rw [word_of_kwMatches hkw h1 h2] at hc; cases hc

lemma space_chars {c : Char} (h : isSpaceChar c = true) :
    c = ' ' ∨ c = '\t' ∨ c = '\n' ∨ c = '\r' ∨ c = '\x0b' ∨ c = '\x0c' := by
  simp only [isSpaceChar, Bool.or_eq_true, beq_iff_eq] at h
  tauto

lemma space_not_word {c : Char} (h : isSpaceChar c = true) : isWordChar c = false := by
  rcases space_chars h with rfl | rfl | rfl | rfl | rfl | rfl <;> decide

lemma kwLimit_word : ∀ k ∈ KW_LIMIT, isWordChar k.1 = true ∧ isWordChar k.2 = true := by decide

lemma matchKw_some_decomp : ∀ (ks : List KwChar) (l r : List Char),
    matchKw ks l = some r →
    ∃ pre, l = pre ++ r ∧ List.Forall₂ (fun k c => kwMatches k c = true) ks pre := by
  intro ks
  induction ks with
  | nil =>
    intro l r h
    refine ⟨[], ?_, List.Forall₂.nil⟩
    injection h with h
    try rw [h]
    try rfl
  | cons k ks ih =>
    intro l r h
    cases l with
    | nil => exact absurd h (by simp [matchKw])
    | cons c cs =>
      unfold matchKw at h
      cases hkc : kwMatches k c with
      | false => rw [hkc] at h; cases h
      | true =>
        rw [hkc] at h
        simp only [if_true] at h
        obtain ⟨pre, hpre, hf⟩ := ih cs r h
        exact ⟨c :: pre, by rw [List.cons_append, hpre], List.Forall₂.cons hkc hf⟩

lemma matchKw_of_forall₂ : ∀ {ks : List KwChar} {pre : List Char},
    List.Forall₂ (fun k c => kwMatches k c = true) ks pre →
    ∀ X : List Char, matchKw ks (pre ++ X) = some X := by
  intro ks pre h
  induction h with
  | nil => intro X; rfl
  | cons hkc _ ih =>
    intro X
    rw [List.cons_append]
    unfold matchKw
    rw [hkc]
    simp only [if_true]
    exact ih X

lemma forall₂_kw_word {ks : List KwChar} {pre : List Char}
    (hks : ∀ k ∈ ks, isWordChar k.1 = true ∧ isWordChar k.2 = true)
    (h : List.Forall₂ (fun k c => kwMatches k c = true) ks pre) :
    ∀ c ∈ pre, isWordChar c = true := by
  induction h with
  | nil => intro c hc; cases hc
  | cons hkc htl ih =>
    intro c hc
    rcases List.mem_cons.mp hc with rfl | hc
    · exact word_of_kwMatches hkc (hks _ (List.mem_cons_self _ _)).1 (hks _ (List.mem_cons_self _ _)).2
    · exact ih (fun k hk => hks k (List.mem_cons_of_mem _ hk)) c hc

lemma matchKw_append_nonword : ∀ (ks : List KwChar) (s X : List Char),
    (∀ k ∈ ks, isWordChar k.1 = true ∧ isWordChar k.2 = true) →
    (∀ x ∈ X.head?, isWordChar x = false) →
    matchKw ks (s ++ X) = (matchKw ks s).map (· ++ X) := by
  intro ks
  induction ks with
  | nil => intro s X _ _; rfl
  | cons k ks ih =>
    intro s X hks hX
    cases s with
    | nil =>
      cases X with
      | nil => rfl
      | cons x X' =>
        have hx : isWordChar x = false := hX x rfl
        show matchKw (k :: ks) (x :: X') = _
        unfold matchKw
        rw [nonword_not_kw hx (hks k (List.mem_cons_self _ _)).1 (hks k (List.mem_cons_self _ _)).2]
        rfl
    | cons c s' =>
      rw [List.cons_append]
      show matchKw (k :: ks) (c :: (s' ++ X)) = _
      unfold matchKw
      cases hkc : kwMatches k c with
      | false => rfl
      | true =>
        simp only [if_true]
        exact ih s' X (fun k hk => hks k (List.mem_cons_of_mem _ hk)) hX

lemma dropWhile_head_false {p : Char → Bool} :
    ∀ {l : List Char} {d : Char} {rest : List Char}, l.dropWhile p = d :: rest → p d = false := by
  intro l
  induction l with
  | nil => intro d rest h; cases h
  | cons x xs ih =>
    intro d rest h
    rw [List.dropWhile_cons] at h
    by_cases hx : p x = true
    · rw [if_pos hx] at h; exact ih h
    · rw [if_neg hx] at h
      injection h with h1 _
      rw [← h1]
      exact Bool.eq_false_iff.mpr hx

lemma dropWhile_append_all {p : Char → Bool} :
    ∀ {sp : List Char} (l : List Char), (∀ x ∈ sp, p x = true) →
    (sp ++ l).dropWhile p = l.dropWhile p := by
  intro sp
  induction sp with
  | nil => intro l _; rfl
  | cons s sp' ih =>
    intro l h
    rw [List.cons_append, List.dropWhile_cons, if_pos (h s (List.mem_cons_self _ _))]
    exact ih l (fun x hx => h x (List.mem_cons_of_mem _ hx))

end EnforceLimitLemmas


section EnforceLimitLemmas2

open QueryGuardrails

lemma matchLimitAt_true (cs : List Char) : matchLimitAt true cs = none := rfl

lemma matchLimitAt_false_kw_none {cs : List Char} (h : matchKw KW_LIMIT cs = none) :
    matchLimitAt false cs = none := by
  simp only [matchLimitAt, h]
  rfl

lemma matchLimitAt_kw_nil {cs : List Char} (h : matchKw KW_LIMIT cs = some []) :
    matchLimitAt false cs = none := by
  simp only [matchLimitAt, h]
  rfl

lemma matchLimitAt_kw_nonspace {cs r1' : List Char} {c1 : Char}
    (h : matchKw KW_LIMIT cs = some (c1 :: r1')) (hs : isSpaceChar c1 = false) :
    matchLimitAt false cs = none := by
  simp only [matchLimitAt, h, hs]
  rfl

lemma matchLimitAt_kw_space {cs r1' : List Char} {c1 : Char}
    (h : matchKw KW_LIMIT cs = some (c1 :: r1')) (hs : isSpaceChar c1 = true) :
    matchLimitAt false cs =
      (if ((r1'.dropWhile isSpaceChar).takeWhile Char.isDigit).isEmpty then none
       else some (natOfDigits ((r1'.dropWhile isSpaceChar).takeWhile Char.isDigit),
                  (r1'.dropWhile isSpaceChar).dropWhile Char.isDigit)) := by
  simp only [matchLimitAt, h, hs]
  rfl

lemma matchLimitAt_nonword_head {c : Char} (cs : List Char) (h : isWordChar c = false) (w : Bool) :
    matchLimitAt w (c :: cs) = none := by
  cases w with
  | true => rfl
  | false =>
    apply matchLimitAt_false_kw_none
    show matchKw (('L', 'l') :: kwOf "IMIT") (c :: cs) = none
    unfold matchKw
    rw [nonword_not_kw h (by decide) (by decide)]
    rfl

lemma subLimitAux_skip_eq (w : Bool) (k : Nat) (c : Char) (cs : List Char) :
    subLimitAux w (k + 1) (c :: cs) = subLimitAux (isWordChar c) k cs := rfl

lemma subLimitAux_none {w : Bool} {c : Char} {cs : List Char}
    (h : matchLimitAt w (c :: cs) = none) :
    subLimitAux w 0 (c :: cs) = c :: subLimitAux (isWordChar c) 0 cs := by
  conv_lhs => rw [subLimitAux]
  rw [h]

lemma subLimitAux_some {w : Bool} {c : Char} {cs rest : List Char} {n : Nat}
    (h : matchLimitAt w (c :: cs) = some (n, rest)) :
    subLimitAux w 0 (c :: cs) = LIMIT_REPL ++ subLimitAux true (cs.length - rest.length) cs := by
  conv_lhs => rw [subLimitAux]
  rw [h]

lemma subLimitAux_guard (c : Char) (cs : List Char) :
    subLimitAux true 0 (c :: cs) = c :: subLimitAux (isWordChar c) 0 cs :=
  subLimitAux_none rfl

lemma subLimitAux_copy_words : ∀ (pre r : List Char), (∀ x ∈ pre, isWordChar x = true) →
    subLimitAux true 0 (pre ++ r) = pre ++ subLimitAux true 0 r := by
  intro pre
  induction pre with
  | nil => intro r _; rfl
  | cons p pre' ih =>
    intro r h
    rw [List.cons_append, subLimitAux_guard, h p (List.mem_cons_self _ _),
      ih r (fun x hx => h x (List.mem_cons_of_mem _ hx)), List.cons_append]

lemma subLimitAux_copy_nonword : ∀ (sp r : List Char), (∀ x ∈ sp, isWordChar x = false) →
    subLimitAux false 0 (sp ++ r) = sp ++ subLimitAux false 0 r := by
  intro sp
  induction sp with
  | nil => intro r _; rfl
  | cons s sp' ih =>
    intro r h
    rw [List.cons_append,
      subLimitAux_none (matchLimitAt_nonword_head _ (h s (List.mem_cons_self _ _)) false),
      h s (List.mem_cons_self _ _),
      ih r (fun x hx => h x (List.mem_cons_of_mem _ hx)), List.cons_append]

lemma subLimitAux_head (d : Char) (r : List Char) :
    ∃ tl, subLimitAux false 0 (d :: r) = d :: tl ∨ subLimitAux false 0 (d :: r) = 'L' :: tl := by
  cases hm : matchLimitAt false (d :: r) with
  | none => exact ⟨subLimitAux (isWordChar d) 0 r, Or.inl (subLimitAux_none hm)⟩
  | some p =>
    obtain ⟨n, rest⟩ := p
    rw [subLimitAux_some hm]
    exact ⟨"IMIT 1000".data ++ subLimitAux true (r.length - rest.length) r, Or.inr rfl⟩

lemma findLimitAux_cons_some {w : Bool} {c : Char} {cs rest : List Char} {n : Nat}
    (h : matchLimitAt w (c :: cs) = some (n, rest)) : findLimitAux w (c :: cs) = some n := by
  conv_lhs => rw [findLimitAux]
  rw [h]

lemma findLimitAux_cons_none {w : Bool} {c : Char} {cs : List Char}
    (h : matchLimitAt w (c :: cs) = none) :
    findLimitAux w (c :: cs) = findLimitAux (isWordChar c) cs := by
  conv_lhs => rw [findLimitAux]
  rw [h]

lemma matchLimitAt_some_decomp {w : Bool} {cs rest : List Char} {n : Nat}
    (h : matchLimitAt w cs = some (n, rest)) :
    w = false ∧ ∃ pre sp run, cs = pre ++ (sp ++ (run ++ rest)) ∧
      List.Forall₂ (fun k c => kwMatches k c = true) KW_LIMIT pre ∧
      sp ≠ [] ∧ (∀ x ∈ sp, isSpaceChar x = true) ∧
      run ≠ [] ∧ (∀ x ∈ run, x.isDigit = true) ∧
      (∀ d ∈ rest.head?, d.isDigit = false) ∧ n = natOfDigits run := by
  cases w with
  | true => cases h
  | false =>
    refine ⟨rfl, ?_⟩
    cases hkw : matchKw KW_LIMIT cs with
    | none => rw [matchLimitAt_false_kw_none hkw] at h; cases h
    | some r1 =>
      obtain ⟨pre, hpre, hf⟩ := matchKw_some_decomp _ _ _ hkw
      cases r1 with
      | nil => rw [matchLimitAt_kw_nil hkw] at h; cases h
      | cons c1 r1' =>
        by_cases hsp : isSpaceChar c1 = true
        · rw [matchLimitAt_kw_space hkw hsp] at h
          by_cases hrun : ((r1'.dropWhile isSpaceChar).takeWhile Char.isDigit).isEmpty = true
          · rw [if_pos hrun] at h; cases h
          · rw [if_neg hrun] at h
            injection h with h
            injection h with hn hrest
            refine ⟨pre, c1 :: r1'.takeWhile isSpaceChar, (r1'.dropWhile isSpaceChar).takeWhile Char.isDigit,
              ?_, hf, List.cons_ne_nil _ _, ?_, ?_, ?_, ?_, hn.symm⟩
            · rw [hpre, ← hrest]
              congr 1
              rw [List.cons_append]
              congr 1
              rw [List.takeWhile_append_dropWhile, List.takeWhile_append_dropWhile]
            · intro x hx
              rcases List.mem_cons.mp hx with rfl | hx
              · exact hsp
              · exact List.mem_takeWhile_imp hx
            · intro hcontra
              rw [hcontra] at hrun
              exact hrun rfl
            · intro x hx
              exact List.mem_takeWhile_imp hx
            · intro d hd
              rw [← hrest] at hd
              cases hdw : (r1'.dropWhile isSpaceChar).dropWhile Char.isDigit with
              | nil => rw [hdw] at hd; cases hd
              | cons e tl =>
                rw [hdw] at hd
                have : d = e := by
                  have := Option.mem_def.mp hd
                  injection this with h1
                  exact h1.symm
                rw [this]
                exact dropWhile_head_false hdw
        · rw [matchLimitAt_kw_nonspace hkw (Bool.eq_false_iff.mpr hsp)] at h; cases h

end EnforceLimitLemmas2


section EnforceLimitLemmas3

open QueryGuardrails

lemma matchKw_none_sub : ∀ (ks : List KwChar),
    (∀ k ∈ ks, isWordChar k.1 = true ∧ isWordChar k.2 = true) →
    ∀ (c : Char) (cs : List Char), matchKw ks (c :: cs) = none →
    matchKw ks (c :: subLimitAux (isWordChar c) 0 cs) = none := by
  intro ks
  induction ks with
  | nil => intro _ c cs h; cases h
  | cons k ks' ih =>
    intro hks c cs h
    unfold matchKw at h ⊢
    cases hkc : kwMatches k c with
    | false => rfl
    | true =>
      rw [hkc] at h
      simp only [eq_self_iff_true, if_true] at h ⊢
      have hw : isWordChar c = true :=
        word_of_kwMatches hkc (hks k (List.mem_cons_self _ _)).1 (hks k (List.mem_cons_self _ _)).2
      rw [hw]
      cases cs with
      | nil =>
        cases ks' with
        | nil => cases h
        | cons _ _ => rfl
      | cons c2 cs' =>
        rw [subLimitAux_guard]
        exact ih (fun x hx => hks x (List.mem_cons_of_mem _ hx)) c2 cs' h

lemma matchLimitAt_none_sub {w : Bool} {c : Char} {cs : List Char}
    (h : matchLimitAt w (c :: cs) = none) :
    matchLimitAt w (c :: subLimitAux (isWordChar c) 0 cs) = none := by
  cases w with
  | true => rfl
  | false =>
    cases hkw : matchKw KW_LIMIT (c :: cs) with
    | none => exact matchLimitAt_false_kw_none (matchKw_none_sub _ kwLimit_word c cs hkw)
    | some r1 =>
      obtain ⟨pre, hpre, hf⟩ := matchKw_some_decomp _ _ _ hkw
      have hprew : ∀ x ∈ pre, isWordChar x = true := forall₂_kw_word kwLimit_word hf
      have hlen : pre.length = 5 := by
        have := (List.Forall₂.length_eq hf).symm
        simpa using this
      cases hp : pre with
      | nil => rw [hp] at hlen; cases hlen
      | cons p0 pre' =>
        rw [hp] at hpre
        rw [List.cons_append] at hpre
        injection hpre with hc hcs
        subst hc
        have hpre'w : ∀ x ∈ pre', isWordChar x = true := by
          intro x hx
          exact hprew x (hp ▸ List.mem_cons_of_mem _ hx)
        have hcw : isWordChar c = true := hprew c (hp ▸ List.mem_cons_self _ _)
        rw [hcw, hcs, subLimitAux_copy_words pre' r1 hpre'w]
        have hout : matchKw KW_LIMIT (c :: (pre' ++ subLimitAux true 0 r1)) =
            some (subLimitAux true 0 r1) := by
          have heq : c :: (pre' ++ subLimitAux true 0 r1) = pre ++ subLimitAux true 0 r1 := by
            rw [hp, List.cons_append]
          rw [heq]
          exact matchKw_of_forall₂ hf _
        cases r1 with
        | nil => exact matchLimitAt_kw_nil hout
        | cons c1 r1'' =>
          cases hsp : isSpaceChar c1 with
          | false =>
            rw [subLimitAux_guard] at hout ⊢
            exact matchLimitAt_kw_nonspace hout hsp
          | true =>
            rw [matchLimitAt_kw_space hkw hsp] at h
            have hrun : ((r1''.dropWhile isSpaceChar).takeWhile Char.isDigit).isEmpty = true := by
              by_contra hx
              rw [if_neg hx] at h
              cases h
            have hsplit : r1'' = r1''.takeWhile isSpaceChar ++ r1''.dropWhile isSpaceChar :=
              (List.takeWhile_append_dropWhile _ _).symm
            have hsp'w : ∀ x ∈ r1''.takeWhile isSpaceChar, isWordChar x = false := by
              intro x hx
              exact space_not_word (List.mem_takeWhile_imp hx)
            have hsub : subLimitAux false 0 r1'' =
                r1''.takeWhile isSpaceChar ++ subLimitAux false 0 (r1''.dropWhile isSpaceChar) := by
              conv_lhs => rw [hsplit]
              exact subLimitAux_copy_nonword _ _ hsp'w
            rw [subLimitAux_guard, space_not_word hsp, hsub] at hout ⊢
            have hempty : (((r1''.takeWhile isSpaceChar ++
                subLimitAux false 0 (r1''.dropWhile isSpaceChar)).dropWhile isSpaceChar).takeWhile
                  Char.isDigit).isEmpty = true := by
              rw [dropWhile_append_all _ (fun x hx => List.mem_takeWhile_imp hx)]
              cases hr2 : r1''.dropWhile isSpaceChar with
              | nil => rfl
              | cons d r2' =>
                have hd_sp : isSpaceChar d = false := dropWhile_head_false hr2
                have hd_dig : d.isDigit = false := by
                  cases hdd : d.isDigit with
                  | false => rfl
                  | true =>
                    rw [hr2, List.takeWhile_cons, if_pos hdd] at hrun
                    cases hrun
                obtain ⟨tl, htl⟩ := subLimitAux_head d r2'
                rcases htl with htl | htl
                · rw [htl, List.dropWhile_cons, if_neg (by rw [hd_sp]; exact Bool.false_ne_true),
                    List.takeWhile_cons, if_neg (by rw [hd_dig]; exact Bool.false_ne_true)]
                  rfl
                · rw [htl, List.dropWhile_cons, if_neg (by decide),
                    List.takeWhile_cons, if_neg (by decide)]
                  rfl
            rw [matchLimitAt_kw_space hout hsp, if_pos hempty]

end EnforceLimitLemmas3


section EnforceLimitLemmas4

open QueryGuardrails

lemma subLimitAux_skip_append : ∀ (mid : List Char) (w : Bool) (rest : List Char),
    subLimitAux w mid.length (mid ++ rest) =
      subLimitAux (mid.foldl (fun _ c => isWordChar c) w) 0 rest := by
  intro mid
  induction mid with
  | nil => intro w rest; rfl
  | cons m mid' ih =>
    intro w rest
    rw [List.cons_append, List.length_cons, subLimitAux_skip_eq, ih, List.foldl_cons]

lemma foldl_word_concat (xs : List Char) (d : Char) (w : Bool) :
    (xs ++ [d]).foldl (fun _ c => isWordChar c) w = isWordChar d := by
  rw [List.foldl_append]
  rfl

lemma digit_word {c : Char} (h : c.isDigit = true) : isWordChar c = true := by
  unfold isWordChar
  rw [h]
  simp

lemma findLimit_repl (Z : List Char) (hZ : ∀ d ∈ Z.head?, d.isDigit = false) :
    findLimitAux false (LIMIT_REPL ++ Z) = some 1000 := by
  cases Z with
  | nil => decide
  | cons z Z' =>
    have hz : z.isDigit = false := hZ z rfl
    have h1 : findLimitAux false (LIMIT_REPL ++ (z :: Z')) =
        some (natOfDigits ('1' :: '0' :: '0' :: '0' :: List.takeWhile Char.isDigit (z :: Z'))) :=
      rfl
    rw [h1, List.takeWhile_cons, if_neg (by rw [hz]; exact Bool.false_ne_true)]
    rfl

lemma findLimitAux_sub : ∀ (cs : List Char) (w : Bool), (findLimitAux w cs).isSome = true →
    findLimitAux w (subLimitAux w 0 cs) = some 1000 := by
  intro cs
  induction cs with
  | nil => intro w h; cases h
  | cons c cs ih =>
    intro w h
    cases hm : matchLimitAt w (c :: cs) with
    | none =>
      rw [subLimitAux_none hm, findLimitAux_cons_none (matchLimitAt_none_sub hm)]
      rw [findLimitAux_cons_none hm] at h
      exact ih (isWordChar c) h
    | some p =>
      obtain ⟨n, rest⟩ := p
      obtain ⟨hw, pre, sp, run, heq, hf, hspne, hsp, hrunne, hrun, hresthd, hn⟩ :=
        matchLimitAt_some_decomp hm
      subst hw
      rw [subLimitAux_some hm]
      have hlen : pre.length = 5 := by
        have := (List.Forall₂.length_eq hf).symm
        simpa using this
      cases hp : pre with
      | nil => rw [hp] at hlen; cases hlen
      | cons p0 pre' =>
        rw [hp] at heq
        rw [List.cons_append] at heq
        injection heq with hc hcs
        have hmid : cs = (pre' ++ (sp ++ run)) ++ rest := by
          rw [hcs, List.append_assoc, List.append_assoc]
        have hlenmid : cs.length - rest.length = (pre' ++ (sp ++ run)).length := by
          rw [hmid, List.length_append, Nat.add_sub_cancel]
        obtain ⟨run', dlast, hrunsplit⟩ :
            ∃ run' dlast, run = run' ++ [dlast] := by
          rcases List.eq_nil_or_concat run with hnil | ⟨run', dlast, hsplit⟩
          · exact absurd hnil hrunne
          · exact ⟨run', dlast, by rw [hsplit, List.concat_eq_append]⟩
        have hdlast : dlast.isDigit = true := hrun dlast (by rw [hrunsplit]; simp)
        have hfold : (pre' ++ (sp ++ run)).foldl (fun _ c => isWordChar c) true = true := by
          rw [hrunsplit, show pre' ++ (sp ++ (run' ++ [dlast])) =
            (pre' ++ (sp ++ run')) ++ [dlast] by simp [List.append_assoc]]
          rw [foldl_word_concat]
          exact digit_word hdlast
        rw [hlenmid, hmid, subLimitAux_skip_append, hfold]
        apply findLimit_repl
        intro d hd
        cases rest with
        | nil => cases hd
        | cons e r'' =>
          rw [subLimitAux_guard] at hd
          have : d = e := by
            have := Option.mem_def.mp hd
            injection this with h1
            exact h1.symm
          rw [this]
          exact hresthd e rfl

end EnforceLimitLemmas4


section EnforceLimitLemmas5

open QueryGuardrails

lemma trailers_head_nonword {tail : List Char}
    (htail : ∀ x ∈ tail, isSpaceChar x = true ∨ x = ';') :
    ∀ x ∈ tail.head?, isWordChar x = false := by
  cases tail with
  | nil => intro x hx; cases hx
  | cons t tl =>
    intro x hx
    have hxt : x = t := by
      have := Option.mem_def.mp hx
      injection this with h1
      exact h1.symm
    rw [hxt]
    rcases htail t (List.mem_cons_self _ _) with hsp | hsemi
    · exact space_not_word hsp
    · rw [hsemi]; decide

lemma matchLimitAt_append_default {w : Bool} {s tail : List Char}
    (htail : ∀ x ∈ tail, isSpaceChar x = true ∨ x = ';')
    (h : matchLimitAt w (s ++ tail) = none) :
    matchLimitAt w (s ++ " LIMIT 100".data) = none := by
  cases w with
  | true => rfl
  | false =>
    have hkwT := matchKw_append_nonword KW_LIMIT s tail kwLimit_word (trailers_head_nonword htail)
    have hkwA := matchKw_append_nonword KW_LIMIT s " LIMIT 100".data kwLimit_word
      (by intro x hx; have := Option.mem_def.mp hx; injection this with h1; rw [← h1]; decide)
    cases hks : matchKw KW_LIMIT s with
    | none =>
      apply matchLimitAt_false_kw_none
      rw [hkwA, hks]
      rfl
    | some r_s =>
      have hT : matchKw KW_LIMIT (s ++ tail) = some (r_s ++ tail) := by
        rw [hkwT, hks]; rfl
      have hA : matchKw KW_LIMIT (s ++ " LIMIT 100".data) = some (r_s ++ " LIMIT 100".data) := by
        rw [hkwA, hks]; rfl
      cases r_s with
      | nil =>
        rw [List.nil_append] at hA
        have hA' : matchKw KW_LIMIT (s ++ " LIMIT 100".data) = some (' ' :: "LIMIT 100".data) := hA
        rw [matchLimitAt_kw_space hA' (by decide)]
        rfl
      | cons c1 r_s' =>
        rw [List.cons_append] at hT hA
        cases hsp : isSpaceChar c1 with
        | false => exact matchLimitAt_kw_nonspace hA hsp
        | true =>
          rw [matchLimitAt_kw_space hT hsp] at h
          have hrunT : (((r_s' ++ tail).dropWhile isSpaceChar).takeWhile Char.isDigit).isEmpty
              = true := by
            by_contra hx
            rw [if_neg hx] at h
            cases h
          rw [matchLimitAt_kw_space hA hsp]
          rw [if_pos]
          have hsplit : r_s' = r_s'.takeWhile isSpaceChar ++ r_s'.dropWhile isSpaceChar :=
            (List.takeWhile_append_dropWhile _ _).symm
          have hallsp : ∀ x ∈ r_s'.takeWhile isSpaceChar, isSpaceChar x = true := by
            intro x hx
            exact List.mem_takeWhile_imp hx
          have hdwA : (r_s' ++ " LIMIT 100".data).dropWhile isSpaceChar =
              (r_s'.dropWhile isSpaceChar ++ " LIMIT 100".data).dropWhile isSpaceChar := by
            conv_lhs => rw [hsplit]
            rw [List.append_assoc]
            exact dropWhile_append_all _ hallsp
          have hdwT : (r_s' ++ tail).dropWhile isSpaceChar =
              (r_s'.dropWhile isSpaceChar ++ tail).dropWhile isSpaceChar := by
            conv_lhs => rw [hsplit]
            rw [List.append_assoc]
            exact dropWhile_append_all _ hallsp
          rw [hdwA]
          cases hr2 : r_s'.dropWhile isSpaceChar with
          | nil =>
            decide
          | cons d rc =>
            have hd_sp : isSpaceChar d = false := dropWhile_head_false hr2
            have hd_dig : d.isDigit = false := by
              cases hdd : d.isDigit with
              | false => rfl
              | true =>
                rw [hdwT, hr2] at hrunT
                rw [List.cons_append, List.dropWhile_cons,
                  if_neg (by rw [hd_sp]; exact Bool.false_ne_true),
                  List.takeWhile_cons, if_pos hdd] at hrunT
                cases hrunT
            rw [List.cons_append, List.dropWhile_cons,
              if_neg (by rw [hd_sp]; exact Bool.false_ne_true),
              List.takeWhile_cons, if_neg (by rw [hd_dig]; exact Bool.false_ne_true)]
            rfl

lemma findLimitAux_append_default : ∀ (s : List Char) (w : Bool) {tail : List Char},
    (∀ x ∈ tail, isSpaceChar x = true ∨ x = ';') →
    findLimitAux w (s ++ tail) = none →
    findLimitAux w (s ++ " LIMIT 100".data) = some 100 := by
  intro s
  induction s with
  | nil =>
    intro w tail _ _
    cases w <;> decide
  | cons c s' ih =>
    intro w tail htail h
    rw [List.cons_append] at h ⊢
    have h0 : matchLimitAt w (c :: (s' ++ tail)) = none := by
      cases hm : matchLimitAt w (c :: (s' ++ tail)) with
      | none => rfl
      | some p =>
        obtain ⟨n, r⟩ := p
        rw [findLimitAux_cons_some hm] at h
        cases h
    have h1 : findLimitAux (isWordChar c) (s' ++ tail) = none := by
      rw [findLimitAux_cons_none h0] at h
      exact h
    have h2 : matchLimitAt w ((c :: s') ++ " LIMIT 100".data) = none :=
      matchLimitAt_append_default htail (by rw [List.cons_append]; exact h0)
    rw [List.cons_append] at h2
    rw [findLimitAux_cons_none h2]
    exact ih (isWordChar c) htail h1

lemma rstrip_decomp_gen (p : Char → Bool) (m : List Char) :
    m = (m.reverse.dropWhile p).reverse ++ (m.reverse.takeWhile p).reverse ∧
    ∀ x ∈ (m.reverse.takeWhile p).reverse, p x = true := by
  constructor
  · conv_lhs => rw [← List.reverse_reverse m]
    conv_lhs => rw [← List.takeWhile_append_dropWhile p m.reverse]
    rw [List.reverse_append]
  · intro x hx
    exact List.mem_takeWhile_imp (List.mem_reverse.mp hx)

lemma rstrip_decomp (l : List Char) :
    ∃ t, l = rstripSemi (rstripWs l) ++ t ∧ ∀ x ∈ t, isSpaceChar x = true ∨ x = ';' := by
  obtain ⟨h1, h1m⟩ := rstrip_decomp_gen isSpaceChar l
  obtain ⟨h2, h2m⟩ := rstrip_decomp_gen (· == ';') (rstripWs l)
  refine ⟨(((rstripWs l).reverse.takeWhile (· == ';')).reverse ++
    (l.reverse.takeWhile isSpaceChar).reverse), ?_, ?_⟩
  · conv_lhs => rw [h1]
    have hW : (l.reverse.dropWhile isSpaceChar).reverse = rstripWs l := rfl
    rw [hW]
    conv_lhs => rw [h2]
    rw [List.append_assoc]
    rfl
  · intro x hx
    rcases List.mem_append.mp hx with hx | hx
    · exact Or.inr (beq_iff_eq.mp (h2m x hx))
    · exact Or.inl (h1m x hx)

end EnforceLimitLemmas5


section EnforceLimitFinal

open QueryGuardrails

lemma enforce_none {q : String} (h : findLimit q = none) :
    enforce_limit q = String.mk (rstripSemi (rstripWs q.data) ++ " LIMIT 100".data) := by
  simp only [enforce_limit, h]
  rw [show (" LIMIT " ++ toString (min MAX_RESULTS_DEFAULT MAX_RESULTS_ABSOLUTE)).data =
    " LIMIT 100".data from by decide]

lemma enforce_some_le {q : String} {n : Nat} (h : findLimit q = some n) (hn : n ≤ 1000) :
    enforce_limit q = q := by
  simp only [enforce_limit, h]
  rw [if_neg (show ¬n > MAX_RESULTS_ABSOLUTE from fun hgt => absurd hn (Nat.not_le.mpr hgt))]

lemma enforce_some_gt {q : String} {n : Nat} (h : findLimit q = some n) (hn : 1000 < n) :
    enforce_limit q = String.mk (subLimit q.data) := by
  simp only [enforce_limit, h]
  rw [if_pos (show n > MAX_RESULTS_ABSOLUTE from hn)]

end EnforceLimitFinal

/-- **C3**: `enforce_limit` appends the default " LIMIT 100" (after stripping
trailing whitespace and semicolons) when the query carries no LIMIT clause;
returns the query unchanged when its LIMIT n has n ≤ 1000; rewrites every
LIMIT clause to LIMIT 1000 when n > 1000, after which the first LIMIT of the
result is exactly 1000; and in every case the result carries a row cap ≤ 1000.
The three concrete spec scenarios behave exactly as stated. -/
theorem C3_enforce_limit (q : String) :
    (QueryGuardrails.findLimit q = none →
      QueryGuardrails.enforce_limit q =
        String.mk (QueryGuardrails.rstripSemi (QueryGuardrails.rstripWs q.data) ++
          " LIMIT 100".data)) ∧
    (∀ n, QueryGuardrails.findLimit q = some n → n ≤ 1000 →
      QueryGuardrails.enforce_limit q = q) ∧
    (∀ n, QueryGuardrails.findLimit q = some n → 1000 < n →
      QueryGuardrails.enforce_limit q = String.mk (QueryGuardrails.subLimit q.data) ∧
      QueryGuardrails.findLimit (QueryGuardrails.enforce_limit q) = some 1000) ∧
    (∃ m, QueryGuardrails.findLimit (QueryGuardrails.enforce_limit q) = some m ∧ m ≤ 1000) ∧
    QueryGuardrails.enforce_limit "MATCH (n:Task) RETURN n" =
      "MATCH (n:Task) RETURN n LIMIT 100" ∧
    QueryGuardrails.enforce_limit "MATCH (n:Task) RETURN n LIMIT 5000" =
      "MATCH (n:Task) RETURN n LIMIT 1000" ∧
    QueryGuardrails.enforce_limit "MATCH (n:Task) RETURN n;" =
      "MATCH (n:Task) RETURN n LIMIT 100" := by
  have hgtcase : ∀ n, QueryGuardrails.findLimit q = some n → 1000 < n →
      QueryGuardrails.enforce_limit q = String.mk (QueryGuardrails.subLimit q.data) ∧
      QueryGuardrails.findLimit (QueryGuardrails.enforce_limit q) = some 1000 := by
    intro n hf hn
    refine ⟨enforce_some_gt hf hn, ?_⟩
    rw [enforce_some_gt hf hn]
    show QueryGuardrails.findLimitAux false (QueryGuardrails.subLimitAux false 0 q.data) =
      some 1000
    apply findLimitAux_sub
    show (QueryGuardrails.findLimitAux false q.data).isSome = true
    rw [show QueryGuardrails.findLimitAux false q.data = QueryGuardrails.findLimit q from rfl,
      hf]
    rfl
  refine ⟨fun h => enforce_none h, fun n hf hn => enforce_some_le hf hn, hgtcase, ?_,
    by decide, by decide, by decide⟩
  cases hf : QueryGuardrails.findLimit q with
  | none =>
    obtain ⟨t, ht, htail⟩ := rstrip_decomp q.data
    refine ⟨100, ?_, by norm_num⟩
    rw [enforce_none hf]
    show QueryGuardrails.findLimitAux false
      (QueryGuardrails.rstripSemi (QueryGuardrails.rstripWs q.data) ++ " LIMIT 100".data) =
      some 100
    apply findLimitAux_append_default _ _ htail
    rw [← ht]
    exact hf
  | some n =>
    by_cases hn : n ≤ 1000
    · refine ⟨n, ?_, hn⟩
      rw [enforce_some_le hf hn, hf]
    · exact ⟨1000, (hgtcase n hf (Nat.not_le.mp hn)).2, le_rfl⟩

/-- Witness for C3: the over-limit clause applied at the spec scenario
`MATCH (n:Task) RETURN n LIMIT 5000`, whose first LIMIT value 5000 exceeds
the 1000 ceiling. -/
theorem C3_enforce_limit_witness :
    QueryGuardrails.enforce_limit "MATCH (n:Task) RETURN n LIMIT 5000" =
      String.mk (QueryGuardrails.subLimit "MATCH (n:Task) RETURN n LIMIT 5000".data) ∧
    QueryGuardrails.findLimit
      (QueryGuardrails.enforce_limit "MATCH (n:Task) RETURN n LIMIT 5000") = some 1000 :=
  (C3_enforce_limit "MATCH (n:Task) RETURN n LIMIT 5000").2.2.1 5000 (by decide) (by decide)

end GraphRAG
